import Mathlib

/-!
Verification development for the VALD request pipeline and binary decoder.

The definitions in this file are shallow embeddings of:
  * `src/vald/lib/vald3/src/unkompress3.c`  (record directory lookup `ukread_`,
    the wavelength filter loop, the `ADDLINE` string storage, `uknext_`),
  * `src/vald/lib/vald3/src/vald3_decompress.cpp` (`VALD3Reader::query_range`),
  * `src/backend/parsemail.c`   (compress, swallow_quotes, CheckClient,
    address extraction from `From:` lines, the mail-splitter main loop),
  * `src/backend/parserequest.c` (SetKeyword, GetElementNumber, CheckAbund,
    the ExtractAll range check, the ExtractStellar abundance block).

C doubles appear only in comparisons and copies, never in arithmetic, so they
are embedded as rationals; C bytes and ints are embedded as `Int`; C strings
as `List Char`.
-/

namespace Vald

/-- Directory entry of a compressed record: `struct RECORD` of unkompress3.c
(`wl1`, `wl2` starting/ending wavelength, offset and length in the data file). -/
structure RECORD where
  wl1 : ℚ
  wl2 : ℚ
  offset : Nat
  length : Int
  deriving DecidableEq, Repr

instance : Inhabited RECORD := ⟨⟨0, 0, 0, 0⟩⟩

/-- Read `records[f][k].wl1` (indices stay in bounds in all verified uses). -/
def rwl1 (recs : List RECORD) (k : Nat) : ℚ := (recs.getD k default).wl1

/-- Read `records[f][k].wl2`. -/
def rwl2 (recs : List RECORD) (k : Nat) : ℚ := (recs.getD k default).wl2

/-- The bisection loop of `ukread_` (unkompress3.c lines 375-379):
`while(j-i>1){ k=(i+j)/2; if(wave1<records[f][k].wl1) j=k; else i=k; }`
returning the final pair `(i, j)`. -/
def bisectGo (recs : List RECORD) (wave1 : ℚ) : Nat → Nat → Nat → Nat × Nat
  | 0, i, j => (i, j)
  | fuel + 1, i, j =>
    if j - i > 1 then
      -- k = (i+j)/2, inlined
      if wave1 < rwl1 recs ((i + j) / 2) then bisectGo recs wave1 fuel i ((i + j) / 2)
      else bisectGo recs wave1 fuel ((i + j) / 2) j
    else (i, j)

/-- Entry point of the loop: `j - i` bounds the number of iterations (the
bracket width shrinks by at least one per iteration), so running the
structural recursion on that much fuel computes the loop's result. -/
def bisectLoop (recs : List RECORD) (wave1 : ℚ) (i j : Nat) : Nat × Nat :=
  bisectGo recs wave1 (j - i) i j

/-- Record location of `ukread_` (unkompress3.c lines 366-381): `none` models
the `return -2` branch, `some k` the chosen record index assigned to
`current_record[f]`. -/
def ukread_locate (recs : List RECORD) (wave1 wave2 : ℚ) : Option Nat :=
  let n := recs.length
  let i := 0
  let j := n - 1
  if wave1 > rwl2 recs j ∨ wave2 < rwl1 recs i then none
  else if wave1 < rwl1 recs i then some i
  else
    let p := bisectLoop recs wave1 i j
    some (if wave1 > rwl2 recs p.1 then p.2 else p.1)


/-- Invariant of the `ukread_` bisection loop: starting from a bracket
`i ≤ j` with `wl1[i] ≤ wave1` and (`wave1 < wl1[j]` or `j` last), the loop
returns an adjacent (or equal) pair with the same bracketing property. -/
lemma bisectGo_spec (recs : List RECORD) (wave1 : ℚ) :
    ∀ d i j, j - i ≤ d → j < recs.length → i ≤ j →
    rwl1 recs i ≤ wave1 →
    (wave1 < rwl1 recs j ∨ j = recs.length - 1) →
    i ≤ (bisectGo recs wave1 d i j).1 ∧
    (bisectGo recs wave1 d i j).1 ≤ (bisectGo recs wave1 d i j).2 ∧
    (bisectGo recs wave1 d i j).2 ≤ j ∧
    (bisectGo recs wave1 d i j).2 - (bisectGo recs wave1 d i j).1 ≤ 1 ∧
    rwl1 recs (bisectGo recs wave1 d i j).1 ≤ wave1 ∧
    (wave1 < rwl1 recs (bisectGo recs wave1 d i j).2 ∨
      (bisectGo recs wave1 d i j).2 = recs.length - 1) := by
  intro d
  induction d with
  | zero =>
    intro i j hd hj hij h1 h2
    rw [bisectGo]
    exact ⟨le_refl i, hij, le_refl j, by omega, h1, h2⟩
  | succ t ih =>
    intro i j hd hj hij h1 h2
    by_cases hgt : j - i > 1
    · rw [bisectGo, if_pos hgt]
      by_cases hcmp : wave1 < rwl1 recs ((i + j) / 2)
      · rw [if_pos hcmp]
        have hres := ih i ((i + j) / 2) (by omega) (by omega) (by omega) h1 (Or.inl hcmp)
        exact ⟨hres.1, hres.2.1, le_trans hres.2.2.1 (by omega), hres.2.2.2⟩
      · rw [if_neg hcmp]
        have hres := ih ((i + j) / 2) j (by omega) hj (by omega) (le_of_not_lt hcmp) h2
        exact ⟨le_trans (by omega : i ≤ (i + j) / 2) hres.1, hres.2⟩
    · rw [bisectGo, if_neg hgt]
      exact ⟨le_refl i, hij, le_refl j, by omega, h1, h2⟩

/-- The bisection-loop invariant transferred to `bisectLoop` (which runs
`bisectGo` on fuel `j - i`). -/
lemma bisectLoop_spec (recs : List RECORD) (wave1 : ℚ) :
    ∀ d i j, j - i ≤ d → j < recs.length → i ≤ j →
    rwl1 recs i ≤ wave1 →
    (wave1 < rwl1 recs j ∨ j = recs.length - 1) →
    i ≤ (bisectLoop recs wave1 i j).1 ∧
    (bisectLoop recs wave1 i j).1 ≤ (bisectLoop recs wave1 i j).2 ∧
    (bisectLoop recs wave1 i j).2 ≤ j ∧
    (bisectLoop recs wave1 i j).2 - (bisectLoop recs wave1 i j).1 ≤ 1 ∧
    rwl1 recs (bisectLoop recs wave1 i j).1 ≤ wave1 ∧
    (wave1 < rwl1 recs (bisectLoop recs wave1 i j).2 ∨
      (bisectLoop recs wave1 i j).2 = recs.length - 1) := by
  intro d i j _ hj hij h1 h2
  exact bisectGo_spec recs wave1 (j - i) i j (le_refl _) hj hij h1 h2

/-- Monotonicity of the directory start wavelengths under the sortedness
hypothesis. -/
lemma rwl1_mono (recs : List RECORD)
    (hmono : ∀ k, k + 1 < recs.length → rwl1 recs k < rwl1 recs (k + 1)) :
    ∀ m k, m ≤ k → k < recs.length → rwl1 recs m ≤ rwl1 recs k := by
  intro m k
  induction k with
  | zero => intro h _; interval_cases m; exact le_refl _
  | succ t ih =>
    intro h hk
    rcases Nat.lt_or_ge m (t + 1) with hm | hm
    · exact le_trans (ih (by omega) (by omega)) (le_of_lt (hmono t hk))
    · have : m = t + 1 := by omega
      subst this; exact le_refl _

/-- C2: for an open reader over a sorted, non-overlapping directory and a
query with `wl_min ≤ wl_max`, `ukread_` reports empty (`-2`) iff
`wl_min > D[n-1].wl_end` or `wl_max < D[0].wl_start`; otherwise it positions
at a record containing `wl_min` when one exists, and else at the first
record whose range lies entirely above `wl_min`. -/
theorem C2_ukread_bisection (recs : List RECORD) (wave1 wave2 : ℚ)
    (hn : 0 < recs.length)
    (hmono : ∀ k, k + 1 < recs.length → rwl1 recs k < rwl1 recs (k + 1))
    (hwide : ∀ k, k < recs.length → rwl1 recs k ≤ rwl2 recs k)
    (hsep : ∀ k, k + 1 < recs.length → rwl2 recs k ≤ rwl1 recs (k + 1))
    (_hq : wave1 ≤ wave2) :
    (ukread_locate recs wave1 wave2 = none ↔
      wave1 > rwl2 recs (recs.length - 1) ∨ wave2 < rwl1 recs 0) ∧
    (∀ k, ukread_locate recs wave1 wave2 = some k →
      k < recs.length ∧
      ((∃ m, m < recs.length ∧ rwl1 recs m ≤ wave1 ∧ wave1 ≤ rwl2 recs m) →
        rwl1 recs k ≤ wave1 ∧ wave1 ≤ rwl2 recs k) ∧
      ((¬ ∃ m, m < recs.length ∧ rwl1 recs m ≤ wave1 ∧ wave1 ≤ rwl2 recs m) →
        wave1 < rwl1 recs k ∧ ∀ m, m < k → rwl2 recs m < wave1)) := by
  have hchain : ∀ m k, m < k → k < recs.length → rwl2 recs m ≤ rwl1 recs k := by
    intro m k hmk hk
    exact le_trans (hsep m (by omega)) (rwl1_mono recs hmono (m + 1) k (by omega) hk)
  constructor
  · unfold ukread_locate
    by_cases hempty : wave1 > rwl2 recs (recs.length - 1) ∨ wave2 < rwl1 recs 0
    · simp [hempty]
    · simp only [hempty, if_false]
      by_cases hlow : wave1 < rwl1 recs 0 <;> simp [hlow, hempty]
  · intro k hk
    unfold ukread_locate at hk
    by_cases hempty : wave1 > rwl2 recs (recs.length - 1) ∨ wave2 < rwl1 recs 0
    · simp [hempty] at hk
    · simp only [hempty, if_false] at hk
      push_neg at hempty
      by_cases hlow : wave1 < rwl1 recs 0
      · simp only [hlow, if_true, Option.some.injEq] at hk
        subst hk
        have hnone : ¬ ∃ m, m < recs.length ∧ rwl1 recs m ≤ wave1 ∧ wave1 ≤ rwl2 recs m := by
          rintro ⟨m, hm, hm1, _⟩
          exact absurd (lt_of_lt_of_le hlow (rwl1_mono recs hmono 0 m (Nat.zero_le m) hm))
            (not_lt.mpr hm1)
        exact ⟨hn, fun h => absurd h hnone,
          fun _ => ⟨hlow, fun m hm => absurd hm (Nat.not_lt_zero m)⟩⟩
      · simp only [hlow, if_false, Option.some.injEq] at hk
        have h0 : rwl1 recs 0 ≤ wave1 := le_of_not_lt hlow
        obtain ⟨hii, hij, hjle, hadj, hi1, hdisj⟩ :=
          bisectLoop_spec recs wave1 (recs.length - 1) 0 (recs.length - 1)
            (by omega) (by omega) (Nat.zero_le _) h0 (Or.inr rfl)
        set i' := (bisectLoop recs wave1 0 (recs.length - 1)).1 with hi'def
        set j' := (bisectLoop recs wave1 0 (recs.length - 1)).2 with hj'def
        have hj'n : j' < recs.length := by omega
        by_cases hgt : wave1 > rwl2 recs i'
        · rw [if_pos hgt] at hk
          subst hk
          by_cases hlt : wave1 < rwl1 recs j'
          · -- wave1 falls in the gap below record j': no record contains it
            have hnone : ¬ ∃ m, m < recs.length ∧ rwl1 recs m ≤ wave1 ∧ wave1 ≤ rwl2 recs m := by
              rintro ⟨m, hm, hm1, hm2⟩
              rcases Nat.lt_or_ge m j' with hmj | hmj
              · have hmi : m ≤ i' := by omega
                rcases Nat.eq_or_lt_of_le hmi with hmeq | hmlt
                · subst hmeq; exact absurd hm2 (not_le.mpr hgt)
                · have h2 : rwl2 recs m ≤ rwl2 recs i' :=
                    le_trans (hchain m i' hmlt (by omega)) (hwide i' (by omega))
                  exact absurd (le_trans hm2 h2) (not_le.mpr hgt)
              · have : rwl1 recs j' ≤ rwl1 recs m := rwl1_mono recs hmono j' m hmj hm
                exact absurd hm1 (not_le.mpr (lt_of_lt_of_le hlt this))
            refine ⟨hj'n, fun h => absurd h hnone, fun _ => ⟨hlt, ?_⟩⟩
            intro m hm
            have hmi : m ≤ i' := by omega
            rcases Nat.eq_or_lt_of_le hmi with hmeq | hmlt
            · subst hmeq; exact hgt
            · exact lt_of_le_of_lt
                (le_trans (hchain m i' hmlt (by omega)) (hwide i' (by omega))) hgt
          · -- j' is the last record and wl1[j'] ≤ wave1 ≤ wl2[j']: containment
            have hlast : j' = recs.length - 1 := hdisj.resolve_left hlt
            have hjle2 : rwl1 recs j' ≤ wave1 := le_of_not_lt hlt
            have hup : wave1 ≤ rwl2 recs j' := by
              rw [hlast]; exact le_of_not_lt (by exact_mod_cast not_lt.mpr hempty.1)
            exact ⟨hj'n, fun _ => ⟨hjle2, hup⟩,
              fun hne => absurd ⟨j', hj'n, hjle2, hup⟩ hne⟩
        · rw [if_neg hgt] at hk
          subst hk
          have hcont : rwl1 recs i' ≤ wave1 ∧ wave1 ≤ rwl2 recs i' :=
            ⟨hi1, le_of_not_lt hgt⟩
          exact ⟨by omega, fun _ => hcont,
            fun hne => absurd ⟨i', by omega, hcont.1, hcont.2⟩ hne⟩

/-- Concrete two-record directory used to witness the decoder theorems. -/
def recsW : List RECORD := [⟨4000, 5000, 0, 10⟩, ⟨5000, 6000, 10, 20⟩]

/-- Witness for C2 at the concrete directory `recsW` and query `[4900, 5100]`:
the located record contains `wl_min = 4900`. -/
theorem C2_ukread_bisection_witness :
    rwl1 recsW 0 ≤ 4900 ∧ (4900 : ℚ) ≤ rwl2 recsW 0 := by
  have h := C2_ukread_bisection recsW 4900 5100 (by decide)
    (by intro k hk; have : k = 0 := by simp [recsW] at hk; omega
        subst this; decide)
    (by intro k hk; have : k = 0 ∨ k = 1 := by simp [recsW] at hk; omega
        rcases this with h | h <;> subst h <;> decide)
    (by intro k hk; have : k = 0 := by simp [recsW] at hk; omega
        subst this; decide)
    (by norm_num)
  exact (h.2 0 (by decide)).2.1 ⟨0, by decide, by decide, by decide⟩

/-- Output/scratch buffer state of `ukread_`: the thirteen output arrays
(`wl` … `lande_high`, `str`) together with the running `filtered_count` of
the wavelength filter loop (unkompress3.c lines 392-417). -/
structure UKState where
  wl : Nat → ℚ
  element : Nat → Int
  j_low : Nat → ℚ
  e_low : Nat → ℚ
  j_high : Nat → ℚ
  e_high : Nat → ℚ
  loggf : Nat → ℚ
  gamrad : Nat → ℚ
  gamst : Nat → ℚ
  gamvw : Nat → ℚ
  lande_low : Nat → ℚ
  lande_high : Nat → ℚ
  str : Nat → Int
  filtered_count : Nat

/-- Single array-cell assignment `f[i] = v`. -/
def upd {α : Type} (f : Nat → α) (i : Nat) (v : α) : Nat → α :=
  fun x => if x = i then v else f x

/-- Body of `if(filtered_count != i)` in the `ukread_` filter loop
(unkompress3.c lines 396-414): move line `i` to position `filtered_count`;
the twelve numeric arrays are copied cell-by-cell while the string data is
copied as 76 bytes at a 76-byte stride
(`str[filtered_count*76+j] = str[i*76+j]`, `j < 76`). -/
def moveLine (st : UKState) (i : Nat) : UKState :=
  { wl := upd st.wl st.filtered_count (st.wl i)
    element := upd st.element st.filtered_count (st.element i)
    j_low := upd st.j_low st.filtered_count (st.j_low i)
    e_low := upd st.e_low st.filtered_count (st.e_low i)
    j_high := upd st.j_high st.filtered_count (st.j_high i)
    e_high := upd st.e_high st.filtered_count (st.e_high i)
    loggf := upd st.loggf st.filtered_count (st.loggf i)
    gamrad := upd st.gamrad st.filtered_count (st.gamrad i)
    gamst := upd st.gamst st.filtered_count (st.gamst i)
    gamvw := upd st.gamvw st.filtered_count (st.gamvw i)
    lande_low := upd st.lande_low st.filtered_count (st.lande_low i)
    lande_high := upd st.lande_high st.filtered_count (st.lande_high i)
    str := fun x =>
      if st.filtered_count * 76 ≤ x ∧ x < st.filtered_count * 76 + 76
      then st.str (i * 76 + (x - st.filtered_count * 76)) else st.str x
    filtered_count := st.filtered_count }

/-- One iteration of the `ukread_` wavelength filter loop at index `i`:
`if(wl[i] >= wave1 && wl[i] <= wave2) { if(filtered_count != i) move; filtered_count++; }`. -/
def filterStep (wave1 wave2 : ℚ) (st : UKState) (i : Nat) : UKState :=
  if st.wl i ≥ wave1 ∧ st.wl i ≤ wave2 then
    let st' := if st.filtered_count ≠ i then moveLine st i else st
    { st' with filtered_count := st'.filtered_count + 1 }
  else st

/-- The whole filter loop `for(i = 0; i < nlines; i++)`. -/
def filterLoop (wave1 wave2 : ℚ) (st : UKState) (nlines : Nat) : UKState :=
  (List.range nlines).foldl (filterStep wave1 wave2) st

/-- Indices of the decoded lines whose wavelength lies in `[wave1, wave2]`. -/
def keptIdx (w : Nat → ℚ) (wave1 wave2 : ℚ) (n : Nat) : List Nat :=
  (List.range n).filter (fun i => decide (wave1 ≤ w i ∧ w i ≤ wave2))

/-- All twelve numeric output cells at position `p` of `F` hold the values
of line `m` of `st0`. -/
def NumEq (F st0 : UKState) (p m : Nat) : Prop :=
  F.wl p = st0.wl m ∧ F.element p = st0.element m ∧ F.j_low p = st0.j_low m ∧
  F.e_low p = st0.e_low m ∧ F.j_high p = st0.j_high m ∧ F.e_high p = st0.e_high m ∧
  F.loggf p = st0.loggf m ∧ F.gamrad p = st0.gamrad m ∧ F.gamst p = st0.gamst m ∧
  F.gamvw p = st0.gamvw m ∧ F.lande_low p = st0.lande_low m ∧
  F.lande_high p = st0.lande_high m

lemma filterLoop_succ (wave1 wave2 : ℚ) (st : UKState) (n : Nat) :
    filterLoop wave1 wave2 st (n + 1) =
      filterStep wave1 wave2 (filterLoop wave1 wave2 st n) n := by
  unfold filterLoop
  rw [List.range_succ, List.foldl_append]
  rfl

lemma keptIdx_succ (w : Nat → ℚ) (a b : ℚ) (n : Nat) :
    keptIdx w a b (n + 1) =
      keptIdx w a b n ++ (if a ≤ w n ∧ w n ≤ b then [n] else []) := by
  unfold keptIdx
  rw [List.range_succ, List.filter_append]
  by_cases h : a ≤ w n ∧ w n ≤ b <;> simp [h]

lemma keptIdx_length_le (w : Nat → ℚ) (a b : ℚ) (n : Nat) :
    (keptIdx w a b n).length ≤ n := by
  have := List.length_filter_le (fun i => decide (a ≤ w i ∧ w i ≤ b)) (List.range n)
  simpa [keptIdx] using this

lemma keptIdx_mem (w : Nat → ℚ) (a b : ℚ) (n : Nat) (m : Nat)
    (hm : m ∈ keptIdx w a b n) : m < n ∧ a ≤ w m ∧ w m ≤ b := by
  unfold keptIdx at hm
  rw [List.mem_filter] at hm
  exact ⟨List.mem_range.mp hm.1, of_decide_eq_true hm.2⟩

lemma keptIdx_getD_mem (w : Nat → ℚ) (a b : ℚ) (n p : Nat)
    (hp : p < (keptIdx w a b n).length) : (keptIdx w a b n).getD p 0 ∈ keptIdx w a b n := by
  rw [List.getD_eq_getElem _ _ hp]
  exact List.getElem_mem _

/-- Loop invariant of the `ukread_` filter loop after the first `n`
iterations, relative to the kept-index list `K`:
the counter equals `|K|`; position `p < |K|` of every numeric array holds
line `K[p]` of the input; the string bytes below `|K|*76` were compacted at
the 76-byte stride; everything above is untouched. -/
def FilterInv (wave1 wave2 : ℚ) (st0 : UKState) (n : Nat) (F : UKState) : Prop :=
  F.filtered_count = (keptIdx st0.wl wave1 wave2 n).length ∧
  (∀ p, p < (keptIdx st0.wl wave1 wave2 n).length →
    NumEq F st0 p ((keptIdx st0.wl wave1 wave2 n).getD p 0)) ∧
  (∀ x, x < (keptIdx st0.wl wave1 wave2 n).length * 76 →
    F.str x = st0.str (((keptIdx st0.wl wave1 wave2 n).getD (x / 76) 0) * 76 + x % 76)) ∧
  (∀ x, (keptIdx st0.wl wave1 wave2 n).length * 76 ≤ x → F.str x = st0.str x) ∧
  (∀ q, (keptIdx st0.wl wave1 wave2 n).length ≤ q → NumEq F st0 q q)

lemma NumEq_moveLine_ne (G st0 : UKState) (i p m : Nat) (hp : p ≠ G.filtered_count)
    (h : NumEq G st0 p m) : NumEq (moveLine G i) st0 p m := by
  obtain ⟨e1, e2, e3, e4, e5, e6, e7, e8, e9, e10, e11, e12⟩ := h
  refine ⟨?_, ?_, ?_, ?_, ?_, ?_, ?_, ?_, ?_, ?_, ?_, ?_⟩ <;>
    · simp only [moveLine, upd, if_neg hp]; assumption

lemma NumEq_moveLine_self (G st0 : UKState) (i m : Nat)
    (h : NumEq G st0 i m) : NumEq (moveLine G i) st0 G.filtered_count m := by
  obtain ⟨e1, e2, e3, e4, e5, e6, e7, e8, e9, e10, e11, e12⟩ := h
  refine ⟨?_, ?_, ?_, ?_, ?_, ?_, ?_, ?_, ?_, ?_, ?_, ?_⟩ <;>
    · simp only [moveLine, upd, if_pos rfl]; assumption

lemma moveLine_str_out (G : UKState) (i x : Nat)
    (h : ¬ (G.filtered_count * 76 ≤ x ∧ x < G.filtered_count * 76 + 76)) :
    (moveLine G i).str x = G.str x := by
  simp only [moveLine]; rw [if_neg h]

lemma moveLine_str_in (G : UKState) (i x : Nat)
    (h : G.filtered_count * 76 ≤ x ∧ x < G.filtered_count * 76 + 76) :
    (moveLine G i).str x = G.str (i * 76 + (x - G.filtered_count * 76)) := by
  simp only [moveLine]; rw [if_pos h]


/-- The `ukread_` filter loop satisfies its compaction invariant: after all
`n` iterations the first `filtered_count` lines of the numeric arrays are
exactly the in-range lines in order, the string bytes were compacted at the
76-byte stride, and everything at or above `filtered_count` is untouched. -/
lemma filterLoop_inv (wave1 wave2 : ℚ) (st0 : UKState) (h0 : st0.filtered_count = 0) :
    ∀ n, FilterInv wave1 wave2 st0 n (filterLoop wave1 wave2 st0 n) := by
  intro n
  induction n with
  | zero =>
    refine ⟨?_, ?_, ?_, ?_, ?_⟩
    · simpa [filterLoop, keptIdx] using h0
    · intro p hp; simp [keptIdx] at hp
    · intro x hx; simp [keptIdx] at hx
    · intro x _; rfl
    · intro q _
      exact ⟨rfl, rfl, rfl, rfl, rfl, rfl, rfl, rfl, rfl, rfl, rfl, rfl⟩
  | succ n ih =>
    rw [filterLoop_succ]
    obtain ⟨ihc, ihnum, ihstr, ihstr2, ihhi⟩ := ih
    have hKn : (keptIdx st0.wl wave1 wave2 n).length ≤ n := keptIdx_length_le _ _ _ _
    have hGn : NumEq (filterLoop wave1 wave2 st0 n) st0 n n := ihhi n hKn
    set G := filterLoop wave1 wave2 st0 n with hGdef
    set K := keptIdx st0.wl wave1 wave2 n with hKdef
    by_cases hkeep : wave1 ≤ st0.wl n ∧ st0.wl n ≤ wave2
    · have hcond : G.wl n ≥ wave1 ∧ G.wl n ≤ wave2 := by
        rw [hGn.1]; exact ⟨hkeep.1, hkeep.2⟩
      have hK' : keptIdx st0.wl wave1 wave2 (n + 1) = K ++ [n] := by
        rw [keptIdx_succ, if_pos hkeep]
      have hlenK' : (K ++ [n]).length = K.length + 1 := by simp
      unfold filterStep
      rw [if_pos hcond]
      by_cases hne : G.filtered_count ≠ n
      · -- moved: filtered_count < n, the line is copied down
        rw [if_pos hne]
        have hfc : G.filtered_count = K.length := ihc
        have hfclt : K.length < n := by omega
        refine ⟨?_, ?_, ?_, ?_, ?_⟩
        · show (moveLine G n).filtered_count + 1 = _
          simp only [moveLine, hK', hlenK', hfc]
        · intro p hp
          rw [hK', hlenK'] at hp
          rcases Nat.lt_or_ge p K.length with hplt | hpge
          · have hKD : (K ++ [n]).getD p 0 = K.getD p 0 := List.getD_append _ _ _ _ hplt
            rw [hK', hKD]
            exact NumEq_moveLine_ne G st0 n p _ (by omega) (ihnum p hplt)
          · have hpeq : p = K.length := by omega
            subst hpeq
            have hKD : (K ++ [n]).getD K.length 0 = n := by
              rw [List.getD_append_right _ _ _ _ (le_refl _)]
              simp
            rw [hK', hKD, ← hfc]
            exact NumEq_moveLine_self G st0 n n hGn
        · intro x hx
          rw [hK', hlenK'] at hx
          rcases Nat.lt_or_ge x (K.length * 76) with hxlt | hxge
          · have hstr := ihstr x hxlt
            have hdiv : x / 76 < K.length := by omega
            have hKD : (K ++ [n]).getD (x / 76) 0 = K.getD (x / 76) 0 :=
              List.getD_append _ _ _ _ hdiv
            rw [hK', hKD]
            rw [moveLine_str_out G n x (by rw [hfc]; omega)]
            exact hstr
          · have hin : G.filtered_count * 76 ≤ x ∧ x < G.filtered_count * 76 + 76 := by
              rw [hfc]; omega
            rw [moveLine_str_in G n x hin]
            have hsrc : K.length * 76 ≤ n * 76 + (x - G.filtered_count * 76) := by
              have : K.length * 76 ≤ n * 76 := Nat.mul_le_mul_right _ (by omega)
              omega
            rw [ihstr2 _ hsrc]
            have hdiv : x / 76 = K.length := by omega
            have hKD : (K ++ [n]).getD (x / 76) 0 = n := by
              rw [hdiv, List.getD_append_right _ _ _ _ (le_refl _)]
              simp
            rw [hK', hKD]
            congr 1
            rw [hfc]
            omega
        · intro x hx
          rw [hK', hlenK'] at hx
          rw [moveLine_str_out G n x (by rw [hfc]; omega)]
          exact ihstr2 x (by omega)
        · intro q hq
          rw [hK', hlenK'] at hq
          exact NumEq_moveLine_ne G st0 n q q (by omega) (ihhi q (by omega))
      · -- filtered_count == i: nothing moves, only the counter advances
        rw [if_neg hne]
        push_neg at hne
        have hfc : K.length = n := by rw [← ihc, hne]
        refine ⟨?_, ?_, ?_, ?_, ?_⟩
        · show G.filtered_count + 1 = _
          simp only [hK', hlenK', ihc]
        · intro p hp
          rw [hK', hlenK'] at hp
          rcases Nat.lt_or_ge p K.length with hplt | hpge
          · have hKD : (K ++ [n]).getD p 0 = K.getD p 0 := List.getD_append _ _ _ _ hplt
            rw [hK', hKD]
            exact ihnum p hplt
          · have hpeq : p = K.length := by omega
            subst hpeq
            have hKD : (K ++ [n]).getD K.length 0 = n := by
              rw [List.getD_append_right _ _ _ _ (le_refl _)]
              simp
            rw [hK', hKD]
            have := ihhi K.length (le_refl _)
            rw [hfc] at this ⊢
            exact this
        · intro x hx
          rw [hK', hlenK'] at hx
          rcases Nat.lt_or_ge x (K.length * 76) with hxlt | hxge
          · have hdiv : x / 76 < K.length := by omega
            have hKD : (K ++ [n]).getD (x / 76) 0 = K.getD (x / 76) 0 :=
              List.getD_append _ _ _ _ hdiv
            rw [hK', hKD]
            exact ihstr x hxlt
          · have hdiv : x / 76 = K.length := by omega
            have hKD : (K ++ [n]).getD (x / 76) 0 = n := by
              rw [hdiv, List.getD_append_right _ _ _ _ (le_refl _)]
              simp
            rw [hK', hKD]
            show G.str x = _
            rw [ihstr2 x hxge]
            congr 1
            omega
        · intro x hx
          rw [hK', hlenK'] at hx
          exact ihstr2 x (by omega)
        · intro q hq
          rw [hK', hlenK'] at hq
          exact ihhi q (by omega)
    · -- the line is out of range: the state is unchanged
      have hcond : ¬ (G.wl n ≥ wave1 ∧ G.wl n ≤ wave2) := by
        rw [hGn.1]; exact hkeep
      have hK' : keptIdx st0.wl wave1 wave2 (n + 1) = K := by
        rw [keptIdx_succ, if_neg hkeep]; simp
      unfold filterStep
      rw [if_neg hcond]
      rw [FilterInv, hK']
      exact ⟨ihc, ihnum, ihstr, ihstr2, ihhi⟩

/-- C3: every transition among the `filtered_count` lines left in the output
buffers by the `ukread_` filter loop has wavelength within the requested
range `[wave1, wave2]`. -/
theorem C3_ukread_filter_in_range (wave1 wave2 : ℚ) (st0 : UKState) (nlines : Nat)
    (h0 : st0.filtered_count = 0) :
    ∀ p, p < (filterLoop wave1 wave2 st0 nlines).filtered_count →
      wave1 ≤ (filterLoop wave1 wave2 st0 nlines).wl p ∧
      (filterLoop wave1 wave2 st0 nlines).wl p ≤ wave2 := by
  intro p hp
  obtain ⟨hc, hnum, _, _, _⟩ := filterLoop_inv wave1 wave2 st0 h0 nlines
  rw [hc] at hp
  have hwl := (hnum p hp).1
  have hmem := keptIdx_getD_mem st0.wl wave1 wave2 nlines p hp
  have hkp := keptIdx_mem _ _ _ _ _ hmem
  rw [hwl]
  exact ⟨hkp.2.1, hkp.2.2⟩

/-- Concrete buffer state used to witness the filter-loop theorems: decoded
wavelengths `0, 1, 2, …`, all other fields zero. -/
def ukW : UKState :=
  { wl := fun i => (i : ℚ)
    element := fun _ => 0
    j_low := fun _ => 0
    e_low := fun _ => 0
    j_high := fun _ => 0
    e_high := fun _ => 0
    loggf := fun _ => 0
    gamrad := fun _ => 0
    gamst := fun _ => 0
    gamvw := fun _ => 0
    lande_low := fun _ => 0
    lande_high := fun _ => 0
    str := fun _ => 0
    filtered_count := 0 }

/-- Witness for C3 at a concrete three-line decode and query `[1, 2]`. -/
theorem C3_ukread_filter_in_range_witness :
    1 ≤ (filterLoop 1 2 ukW 3).wl 0 ∧ (filterLoop 1 2 ukW 3).wl 0 ≤ 2 :=
  C3_ukread_filter_in_range 1 2 ukW 3 rfl 0 (by decide)

/-- One `ADDLINE` flush (unkompress3.c lines 107-152): after a full 270-byte
line is accumulated, its ancillary text is stored by
`memcpy(str + nlines*210, line + 60, 210)`, i.e. a 210-byte block at a
210-byte stride. -/
def storeLine (str : Nat → Int) (nlines : Nat) (line : Nat → Int) : Nat → Int :=
  fun x =>
    if nlines * 210 ≤ x ∧ x < nlines * 210 + 210
    then line (60 + (x - nlines * 210)) else str x

/-- The string buffer after `uncompress` flushed lines `0 … n-1` through
`ADDLINE`, where `lineBytes i` is the 270-byte decoded line `i`. -/
def decodeStr (lineBytes : Nat → Nat → Int) : Nat → (Nat → Int) → (Nat → Int)
  | 0, str => str
  | n + 1, str => storeLine (decodeStr lineBytes n str) n (lineBytes n)

lemma decodeStr_spec (lineBytes : Nat → Nat → Int) (str0 : Nat → Int) :
    ∀ n x, x < n * 210 →
      decodeStr lineBytes n str0 x = lineBytes (x / 210) (60 + x % 210) := by
  intro n
  induction n with
  | zero => intro x hx; omega
  | succ m ih =>
    intro x hx
    show storeLine (decodeStr lineBytes m str0) m (lineBytes m) x = _
    unfold storeLine
    by_cases h : m * 210 ≤ x ∧ x < m * 210 + 210
    · rw [if_pos h]
      have h1 : x / 210 = m := by omega
      have h2 : 60 + (x - m * 210) = 60 + x % 210 := by omega
      rw [h1, h2]
    · rw [if_neg h]
      exact ih x (by omega)

lemma keptIdx_pairwise (w : Nat → ℚ) (a b : ℚ) (n : Nat) :
    (keptIdx w a b n).Pairwise (· < ·) := by
  exact (List.pairwise_lt_range n).filter _

/-- Positions in the kept-index list compare like their indices. -/
lemma keptIdx_getD_lt (w : Nat → ℚ) (a b : ℚ) (n : Nat) (p q : Nat)
    (hp : p < (keptIdx w a b n).length) (hq : q < (keptIdx w a b n).length)
    (hpq : p < q) :
    (keptIdx w a b n).getD p 0 < (keptIdx w a b n).getD q 0 := by
  rw [List.getD_eq_getElem _ _ hp, List.getD_eq_getElem _ _ hq]
  exact List.pairwise_iff_get.mp (keptIdx_pairwise w a b n) ⟨p, hp⟩ ⟨q, hq⟩ hpq

/-- Under nondecreasing decoded wavelengths, the kept indices form a
contiguous block: `K[p] = K[0] + p`. -/
lemma keptIdx_contig (w : Nat → ℚ) (a b : ℚ) (n : Nat)
    (hsort : ∀ i j, i ≤ j → j < n → w i ≤ w j) :
    ∀ p, p < (keptIdx w a b n).length →
      (keptIdx w a b n).getD p 0 = (keptIdx w a b n).getD 0 0 + p := by
  intro p
  induction p with
  | zero => intro _; omega
  | succ t ih =>
    intro hp
    have htlt : t < (keptIdx w a b n).length := by omega
    have hlt : (keptIdx w a b n).getD t 0 < (keptIdx w a b n).getD (t + 1) 0 :=
      keptIdx_getD_lt w a b n t (t + 1) htlt hp (by omega)
    -- no kept index can be skipped: otherwise the in-between index would be
    -- kept as well (wavelengths are monotone), contradicting adjacency
    by_cases hgap : (keptIdx w a b n).getD (t + 1) 0 > (keptIdx w a b n).getD t 0 + 1
    · exfalso
      set Kt := (keptIdx w a b n).getD t 0 with hKt
      set Kt1 := (keptIdx w a b n).getD (t + 1) 0 with hKt1
      have hmemt := keptIdx_mem w a b n Kt (keptIdx_getD_mem w a b n t htlt)
      have hmemt1 := keptIdx_mem w a b n Kt1 (keptIdx_getD_mem w a b n (t + 1) hp)
      have hmid : (Kt + 1) ∈ keptIdx w a b n := by
        unfold keptIdx
        rw [List.mem_filter, List.mem_range]
        refine ⟨by omega, decide_eq_true ?_⟩
        constructor
        · exact le_trans hmemt.2.1 (hsort Kt (Kt + 1) (by omega) (by omega))
        · exact le_trans (hsort (Kt + 1) Kt1 (by omega) hmemt1.1) hmemt1.2.2
      obtain ⟨s, hs⟩ := List.mem_iff_get.mp hmid
      have hslt : (s : Nat) < (keptIdx w a b n).length := s.isLt
      have hgetD : (keptIdx w a b n).getD (s : Nat) 0 = Kt + 1 := by
        rw [List.getD_eq_getElem _ _ hslt, ← List.get_eq_getElem]
        exact hs
      have h1 : t < (s : Nat) := by
        by_contra hcon
        push_neg at hcon
        rcases Nat.eq_or_lt_of_le hcon with he | hl
        · rw [he] at hgetD; omega
        · have := keptIdx_getD_lt w a b n (s : Nat) t hslt htlt hl
          omega
      have h2 : (s : Nat) < t + 1 := by
        by_contra hcon
        push_neg at hcon
        rcases Nat.eq_or_lt_of_le hcon with he | hl
        · rw [← he] at hgetD; omega
        · have := keptIdx_getD_lt w a b n (t + 1) (s : Nat) hp hslt hl
          omega
      omega
    · have := ih htlt
      omega

/-- C9 (amended): the `ukread_` filter loop compacts the twelve numeric
arrays consistently, but copies the ancillary string data at a 76-byte
stride (`str[fc*76+j] = str[i*76+j]`) although decompression stored it at a
210-byte stride; consequently, when the decoded wavelengths are
nondecreasing, some decoded transition below `wl_min` precedes the in-range
transitions, and the decoded blocks are free of coincidences (byte content
injective), the 210-byte string block at every returned position differs
from the block decoded for that transition. -/
theorem C9_str_misstride (wave1 wave2 : ℚ) (st0 : UKState) (nlines : Nat)
    (lineBytes : Nat → Nat → Int) (str0 : Nat → Int)
    (h0 : st0.filtered_count = 0)
    (hdec : st0.str = decodeStr lineBytes nlines str0)
    (hsort : ∀ i j, i ≤ j → j < nlines → st0.wl i ≤ st0.wl j)
    (hinj : ∀ i u i' u', i < nlines → i' < nlines → u < 210 → u' < 210 →
      lineBytes i (60 + u) = lineBytes i' (60 + u') → i = i' ∧ u = u')
    (hbelow : ∃ i i', i < i' ∧ i' < nlines ∧ st0.wl i < wave1 ∧
      wave1 ≤ st0.wl i' ∧ st0.wl i' ≤ wave2) :
    (∀ x, x < nlines * 210 → st0.str x = lineBytes (x / 210) (60 + x % 210)) ∧
    (∀ p, p < (keptIdx st0.wl wave1 wave2 nlines).length →
      NumEq (filterLoop wave1 wave2 st0 nlines) st0 p
        ((keptIdx st0.wl wave1 wave2 nlines).getD p 0)) ∧
    (∀ p u, p < (keptIdx st0.wl wave1 wave2 nlines).length → u < 76 →
      (filterLoop wave1 wave2 st0 nlines).str (p * 76 + u) =
        st0.str ((keptIdx st0.wl wave1 wave2 nlines).getD p 0 * 76 + u)) ∧
    (∀ p, p < (keptIdx st0.wl wave1 wave2 nlines).length →
      ¬ ∀ u, u < 210 →
        (filterLoop wave1 wave2 st0 nlines).str (p * 210 + u) =
          st0.str ((keptIdx st0.wl wave1 wave2 nlines).getD p 0 * 210 + u)) := by
  obtain ⟨hc, hnum, hs1, hs2, hhi⟩ := filterLoop_inv wave1 wave2 st0 h0 nlines
  have hcstr : ∀ x, x < nlines * 210 →
      st0.str x = lineBytes (x / 210) (60 + x % 210) := by
    intro x hx
    rw [hdec]
    exact decodeStr_spec lineBytes str0 nlines x hx
  have hKlen : (keptIdx st0.wl wave1 wave2 nlines).length ≤ nlines :=
    keptIdx_length_le _ _ _ _
  have hcontig := keptIdx_contig st0.wl wave1 wave2 nlines hsort
  have hk0 : 1 ≤ (keptIdx st0.wl wave1 wave2 nlines).getD 0 0 := by
    obtain ⟨i, i', hii', hi'n, hlow, hin1, hin2⟩ := hbelow
    have hi'mem : i' ∈ keptIdx st0.wl wave1 wave2 nlines := by
      unfold keptIdx
      rw [List.mem_filter, List.mem_range]
      exact ⟨hi'n, decide_eq_true ⟨hin1, hin2⟩⟩
    have hKne : 0 < (keptIdx st0.wl wave1 wave2 nlines).length :=
      List.length_pos.mpr (List.ne_nil_of_mem hi'mem)
    by_contra hcon
    push_neg at hcon
    have h00 : (keptIdx st0.wl wave1 wave2 nlines).getD 0 0 = 0 := by omega
    have hmem0 := keptIdx_mem _ _ _ _ _ (keptIdx_getD_mem _ _ _ _ 0 hKne)
    rw [h00] at hmem0
    have hle : st0.wl 0 ≤ st0.wl i := hsort 0 i (Nat.zero_le i) (by omega)
    exact lt_irrefl wave1 (lt_of_le_of_lt (le_trans hmem0.2.1 hle) hlow)
  refine ⟨hcstr, hnum, ?_, ?_⟩
  · intro p u hp hu
    have hx : p * 76 + u < (keptIdx st0.wl wave1 wave2 nlines).length * 76 := by omega
    rw [hs1 (p * 76 + u) hx]
    have h1 : (p * 76 + u) / 76 = p := by omega
    have h2 : (p * 76 + u) % 76 = u := by omega
    rw [h1, h2]
  · intro p hp hall
    have hall0 := hall 0 (by omega)
    simp only [Nat.add_zero] at hall0
    have hkpmem := keptIdx_mem _ _ _ _ _ (keptIdx_getD_mem _ _ _ _ p hp)
    have hkp_eq := hcontig p hp
    have hkgt : p < (keptIdx st0.wl wave1 wave2 nlines).getD p 0 := by omega
    have hkpn : (keptIdx st0.wl wave1 wave2 nlines).getD p 0 < nlines := hkpmem.1
    have hrhs : st0.str ((keptIdx st0.wl wave1 wave2 nlines).getD p 0 * 210) =
        lineBytes ((keptIdx st0.wl wave1 wave2 nlines).getD p 0) (60 + 0) := by
      rw [hcstr _ (by omega)]
      have e1 : (keptIdx st0.wl wave1 wave2 nlines).getD p 0 * 210 / 210 =
          (keptIdx st0.wl wave1 wave2 nlines).getD p 0 := by omega
      have e2 : (keptIdx st0.wl wave1 wave2 nlines).getD p 0 * 210 % 210 = 0 := by omega
      rw [e1, e2]
    rcases Nat.lt_or_ge (p * 210) ((keptIdx st0.wl wave1 wave2 nlines).length * 76)
      with hlt | hge
    · have hF := hs1 (p * 210) hlt
      have hqlt : (p * 210) / 76 < (keptIdx st0.wl wave1 wave2 nlines).length := by omega
      have hkqmem := keptIdx_mem _ _ _ _ _ (keptIdx_getD_mem _ _ _ _ ((p * 210) / 76) hqlt)
      have hkq_eq := hcontig ((p * 210) / 76) hqlt
      have hkqn : (keptIdx st0.wl wave1 wave2 nlines).getD ((p * 210) / 76) 0 < nlines :=
        hkqmem.1
      have hylt : (keptIdx st0.wl wave1 wave2 nlines).getD ((p * 210) / 76) 0 * 76 +
          p * 210 % 76 < nlines * 210 := by omega
      have hY := hcstr _ hylt
      rw [hF, hY, hrhs] at hall0
      have hb1 : ((keptIdx st0.wl wave1 wave2 nlines).getD ((p * 210) / 76) 0 * 76 +
          p * 210 % 76) / 210 < nlines := by omega
      have := hinj _ _ _ _ hb1 hkpn (Nat.mod_lt _ (by omega)) (by omega) hall0
      omega
    · have hF := hs2 (p * 210) hge
      have hplt : p * 210 < nlines * 210 := by
        have : p < nlines := by omega
        omega
      have hP := hcstr (p * 210) hplt
      have e1 : p * 210 / 210 = p := by omega
      have e2 : p * 210 % 210 = 0 := by omega
      rw [e1, e2] at hP
      rw [hF, hP, hrhs] at hall0
      have := hinj _ _ _ _ (by omega) hkpn (by omega) (by omega) hall0
      omega

/-- Two-line decode in which line 0 (wavelength 0) lies below the query
range `[4, 6]` and line 1 (wavelength 5) lies inside it, with all string
bytes equal (the decoded blocks are degenerate). -/
def ukC9cex : UKState :=
  { wl := fun i => if i = 0 then 0 else 5
    element := fun _ => 0
    j_low := fun _ => 0
    e_low := fun _ => 0
    j_high := fun _ => 0
    e_high := fun _ => 0
    loggf := fun _ => 0
    gamrad := fun _ => 0
    gamst := fun _ => 0
    gamvw := fun _ => 0
    lande_low := fun _ => 0
    lande_high := fun _ => 0
    str := decodeStr (fun _ _ => 0) 2 (fun _ => 0)
    filtered_count := 0 }

set_option maxRecDepth 8000 in
/-- Counterexample to C9 as stated: at this query a decoded transition below
`wl_min` (line 0) precedes the in-range transition (line 1), which is
returned at position 0 — yet the 210-byte string block at the returned
position equals, byte for byte, the block decoded for that transition, so
the claim's universally asserted mismatch fails. -/
theorem C9_str_misstride_cex :
    ukC9cex.wl 0 < 4 ∧ 4 ≤ ukC9cex.wl 1 ∧ ukC9cex.wl 1 ≤ 6 ∧
    keptIdx ukC9cex.wl 4 6 2 = [1] ∧
    (filterLoop 4 6 ukC9cex 2).filtered_count = 1 ∧
    (∀ u, u < 210 →
      (filterLoop 4 6 ukC9cex 2).str (0 * 210 + u) = ukC9cex.str (1 * 210 + u)) := by
  refine ⟨by norm_num [ukC9cex], by norm_num [ukC9cex], by norm_num [ukC9cex],
    by decide, by decide, ?_⟩
  intro u hu
  have hlow : (filterLoop 4 6 ukC9cex 2).str (0 * 210 + u) = 0 := by
    unfold filterLoop
    simp only [List.range_succ, List.range_zero, List.nil_append, List.singleton_append,
      List.foldl_cons, List.foldl_nil]
    unfold filterStep moveLine upd
    norm_num [ukC9cex, decodeStr, storeLine]
  have hhigh : ukC9cex.str (1 * 210 + u) = 0 := by
    show decodeStr (fun _ _ => 0) 2 (fun _ => 0) (1 * 210 + u) = 0
    simp [decodeStr, storeLine]
  rw [hlow, hhigh]

/-- The same two-line decode with pairwise-distinct string bytes
(`lineBytes i u = i*270 + u`). -/
def ukC9wit : UKState :=
  { wl := fun i => if i = 0 then 0 else 5
    element := fun _ => 0
    j_low := fun _ => 0
    e_low := fun _ => 0
    j_high := fun _ => 0
    e_high := fun _ => 0
    loggf := fun _ => 0
    gamrad := fun _ => 0
    gamst := fun _ => 0
    gamvw := fun _ => 0
    lande_low := fun _ => 0
    lande_high := fun _ => 0
    str := decodeStr (fun i u => (i * 270 + u : Int)) 2 (fun _ => 0)
    filtered_count := 0 }

/-- Witness for the amended C9: with nondegenerate content the 210-byte
block at returned position 0 differs from the block decoded for its
transition. -/
theorem C9_str_misstride_witness :
    ¬ ∀ u, u < 210 →
      (filterLoop 4 6 ukC9wit 2).str (0 * 210 + u) =
        ukC9wit.str ((keptIdx ukC9wit.wl 4 6 2).getD 0 0 * 210 + u) := by
  have h := C9_str_misstride 4 6 ukC9wit 2 (fun i u => (i * 270 + u : Int)) (fun _ => 0)
    rfl rfl
    (by intro i j hij hj
        interval_cases j
        · interval_cases i
          norm_num [ukC9wit]
        · interval_cases i <;> norm_num [ukC9wit])
    (by intro i u i' u' hi hi' hu hu' heq
        simp only [] at heq
        exact ⟨by omega, by omega⟩)
    ⟨0, 1, by omega, by omega, by norm_num [ukC9wit], by norm_num [ukC9wit],
      by norm_num [ukC9wit]⟩
  exact h.2.2.2 0 (by decide)

/-- One decoded transition as surfaced through the numeric output buffers of
`ukread_`/`uknext_` (the 210-byte ancillary block is handled separately, cf.
`C9_str_misstride`). -/
structure TransLine where
  wl : ℚ
  element : Int
  j_low : ℚ
  e_low : ℚ
  j_high : ℚ
  e_high : ℚ
  loggf : ℚ
  gamrad : ℚ
  gamst : ℚ
  gamvw : ℚ
  lande_low : ℚ
  lande_high : ℚ
  deriving DecidableEq, Repr

instance : Inhabited TransLine := ⟨⟨0, 0, 0, 0, 0, 0, 0, 0, 0, 0, 0, 0⟩⟩

/-- Per-handle reader state of unkompress3.c: the loaded directory
(`records[f]`/`number_of_records[f]`), the decode function (record index ↦
transitions obtained by `uncompress`), and `current_record[f]`. -/
structure Reader where
  recs : List RECORD
  decoded : Nat → List TransLine
  current_record : Nat

/-- `uknext_` (unkompress3.c lines 440-471): past the last record return
`-2`; otherwise decompress the record at `current_record` — every decoded
transition is returned, no wavelength filter is applied — and advance
`current_record`. -/
def uknextModel (r : Reader) : Int × List TransLine × Reader :=
  if r.current_record ≥ r.recs.length then (-2, [], r)
  else ((r.decoded r.current_record).length, r.decoded r.current_record,
    { r with current_record := r.current_record + 1 })

/-- `ukread_` at the interface level: locate the starting record
(`ukread_locate`), decompress it and filter to `[wave1, wave2]`; by
`filterLoop_inv` the filter loop's net effect on the numeric output buffers
is exactly the in-order sublist of in-range transitions, which is what the
caller observes. `current_record` is left one past the record read. -/
def ukreadModel (r : Reader) (wave1 wave2 : ℚ) : Int × List TransLine × Reader :=
  match ukread_locate r.recs wave1 wave2 with
  | none => (-2, [], r)
  | some k =>
    ((((r.decoded k).filter (fun t => decide (wave1 ≤ t.wl ∧ t.wl ≤ wave2))).length : Int),
     (r.decoded k).filter (fun t => decide (wave1 ≤ t.wl ∧ t.wl ≤ wave2)),
     { r with current_record := k + 1 })

/-- Caller-side inner loop of `VALD3Reader::query_range`
(vald3_decompress.cpp lines 142-163): push every line whose wavelength lies
in `[wl_min, wl_max]` while `total_lines < max_lines`. -/
def pushFiltered (wl_min wl_max : ℚ) (max_lines : Nat) (acc : List TransLine) :
    List TransLine → List TransLine
  | [] => acc
  | t :: ts =>
    if acc.length < max_lines then
      if wl_min ≤ t.wl ∧ t.wl ≤ wl_max then
        pushFiltered wl_min wl_max max_lines (acc ++ [t]) ts
      else pushFiltered wl_min wl_max max_lines acc ts
    else acc

/-- Outer loop of `query_range` (vald3_decompress.cpp lines 140-178), with
fuel: each successful `uknext_` advances `current_record`, so
`n_records + 1` rounds always suffice. After reading the next record the
loop stops as soon as that record's first wavelength exceeds `wl_max`. -/
def queryLoop (wl_min wl_max : ℚ) (max_lines : Nat) :
    Nat → Int → List TransLine → Reader → List TransLine → List TransLine
  | 0, _, _, _, acc => acc
  | fuel + 1, nlines, cur, r, acc =>
    if nlines > 0 ∧ acc.length < max_lines then
      let acc2 := pushFiltered wl_min wl_max max_lines acc cur
      let next := uknextModel r
      if next.1 > 0 ∧ (next.2.1.headD default).wl > wl_max then acc2
      else queryLoop wl_min wl_max max_lines fuel next.1 next.2.1 next.2.2 acc2
    else acc

/-- `VALD3Reader::query_range`: first record through `ukread_`, following
records through `uknext_`, caller-side filtering throughout. -/
def query_range (r : Reader) (wl_min wl_max : ℚ) (max_lines : Nat) : List TransLine :=
  queryLoop wl_min wl_max max_lines (r.recs.length + 1)
    (ukreadModel r wl_min wl_max).1 (ukreadModel r wl_min wl_max).2.1
    (ukreadModel r wl_min wl_max).2.2 []

lemma pushFiltered_mem (wl_min wl_max : ℚ) (max_lines : Nat) :
    ∀ l acc, (∀ t ∈ acc, wl_min ≤ t.wl ∧ t.wl ≤ wl_max) →
    ∀ t ∈ pushFiltered wl_min wl_max max_lines acc l, wl_min ≤ t.wl ∧ t.wl ≤ wl_max := by
  intro l
  induction l with
  | nil => intro acc hacc t ht; exact hacc t ht
  | cons c cs ih =>
    intro acc hacc t ht
    unfold pushFiltered at ht
    by_cases h1 : acc.length < max_lines
    · rw [if_pos h1] at ht
      by_cases h2 : wl_min ≤ c.wl ∧ c.wl ≤ wl_max
      · rw [if_pos h2] at ht
        refine ih (acc ++ [c]) ?_ t ht
        intro u hu
        rcases List.mem_append.mp hu with h | h
        · exact hacc u h
        · rw [List.mem_singleton] at h; subst h; exact h2
      · rw [if_neg h2] at ht
        exact ih acc hacc t ht
    · rw [if_neg h1] at ht
      exact hacc t ht

lemma queryLoop_mem (wl_min wl_max : ℚ) (max_lines : Nat) :
    ∀ fuel nlines cur r acc, (∀ t ∈ acc, wl_min ≤ t.wl ∧ t.wl ≤ wl_max) →
    ∀ t ∈ queryLoop wl_min wl_max max_lines fuel nlines cur r acc,
      wl_min ≤ t.wl ∧ t.wl ≤ wl_max := by
  intro fuel
  induction fuel with
  | zero => intro nlines cur r acc hacc t ht; exact hacc t ht
  | succ f ih =>
    intro nlines cur r acc hacc t ht
    unfold queryLoop at ht
    by_cases h1 : nlines > 0 ∧ acc.length < max_lines
    · rw [if_pos h1] at ht
      by_cases h2 : (uknextModel r).1 > 0 ∧ ((uknextModel r).2.1.headD default).wl > wl_max
      · rw [if_pos h2] at ht
        exact pushFiltered_mem wl_min wl_max max_lines cur acc hacc t ht
      · rw [if_neg h2] at ht
        exact ih _ _ _ _ (pushFiltered_mem wl_min wl_max max_lines cur acc hacc) t ht
    · rw [if_neg h1] at ht
      exact hacc t ht

lemma pushFiltered_eq_filter (wl_min wl_max : ℚ) (max_lines : Nat) :
    ∀ l acc, acc.length + l.length ≤ max_lines →
    pushFiltered wl_min wl_max max_lines acc l =
      acc ++ l.filter (fun t => decide (wl_min ≤ t.wl ∧ t.wl ≤ wl_max)) := by
  intro l
  induction l with
  | nil => intro acc _; simp [pushFiltered]
  | cons c cs ih =>
    intro acc hlen
    unfold pushFiltered
    rw [if_pos (by simp at hlen; omega)]
    by_cases h2 : wl_min ≤ c.wl ∧ c.wl ≤ wl_max
    · rw [if_pos h2, ih (acc ++ [c]) (by simp at hlen ⊢; omega)]
      simp [List.filter, decide_eq_true h2]
    · rw [if_neg h2, ih acc (by simp at hlen ⊢; omega)]
      have : (decide (wl_min ≤ c.wl ∧ c.wl ≤ wl_max)) = false := decide_eq_false h2
      simp [List.filter, this]

/-- C10: `uknext_` returns every transition decoded from the record at
`current_record` with no wavelength filtering (and advances the record
pointer); the range restriction is performed only by the caller
`query_range`, whose per-batch processing equals filtering each returned
line to `[wl_min, wl_max]` (below the line cap), so every emitted transition
is in range; and the loop stops as soon as a freshly read record's first
wavelength exceeds `wl_max`. -/
theorem C10_uknext_unfiltered_caller_filters (wl_min wl_max : ℚ) (max_lines : Nat) :
    (∀ r : Reader, r.current_record < r.recs.length →
      uknextModel r = (((r.decoded r.current_record).length : Int),
        r.decoded r.current_record,
        { r with current_record := r.current_record + 1 })) ∧
    (∀ cur acc : List TransLine, acc.length + cur.length ≤ max_lines →
      pushFiltered wl_min wl_max max_lines acc cur =
        acc ++ cur.filter (fun t => decide (wl_min ≤ t.wl ∧ t.wl ≤ wl_max))) ∧
    (∀ r : Reader, ∀ t ∈ query_range r wl_min wl_max max_lines,
      wl_min ≤ t.wl ∧ t.wl ≤ wl_max) ∧
    (∀ fuel nlines cur r acc, nlines > 0 → acc.length < max_lines →
      (uknextModel r).1 > 0 → ((uknextModel r).2.1.headD default).wl > wl_max →
      queryLoop wl_min wl_max max_lines (fuel + 1) nlines cur r acc =
        pushFiltered wl_min wl_max max_lines acc cur) := by
  refine ⟨?_, ?_, ?_, ?_⟩
  · intro r hr
    unfold uknextModel
    rw [if_neg (by omega)]
  · exact fun cur acc h => pushFiltered_eq_filter wl_min wl_max max_lines cur acc h
  · intro r t ht
    exact queryLoop_mem wl_min wl_max max_lines _ _ _ _ [] (by simp) t ht
  · intro fuel nlines cur r acc h1 h2 h3 h4
    unfold queryLoop
    rw [if_pos ⟨h1, h2⟩, if_pos ⟨h3, h4⟩]

/-- Concrete reader used to witness C10: two records, one transition each. -/
def rdW : Reader :=
  { recs := recsW
    decoded := fun k => if k = 0 then [⟨4500, 0, 0, 0, 0, 0, 0, 0, 0, 0, 0, 0⟩]
      else [⟨5500, 0, 0, 0, 0, 0, 0, 0, 0, 0, 0, 0⟩]
    current_record := 0 }

/-- Witness for C10 at the concrete reader `rdW`: `uknext_` hands back the
full decoded record, and the caller's batch processing equals a filter. -/
theorem C10_uknext_unfiltered_caller_filters_witness :
    uknextModel rdW = (((rdW.decoded rdW.current_record).length : Int),
      rdW.decoded rdW.current_record,
      { rdW with current_record := rdW.current_record + 1 }) ∧
    pushFiltered 4900 5100 10 [] (rdW.decoded 0) =
      [] ++ (rdW.decoded 0).filter (fun t => decide ((4900 : ℚ) ≤ t.wl ∧ t.wl ≤ 5100)) := by
  have h := C10_uknext_unfiltered_caller_filters 4900 5100 10
  exact ⟨h.1 rdW (by decide), h.2.1 (rdW.decoded 0) [] (by decide)⟩

/-- Characters kept by `compress` (parsemail.c lines 8-27, parserequest.c
lines 84-103): alphanumerics and `:", ".", ",", "-", "+`. -/
def keepChar (c : Char) : Bool :=
  c.isAlphanum || c = ':' || c = '.' || c = ',' || c = '-' || c = '+'

/-- `compress(s1, s, nn)`: scan at most `nn` characters, stop at `#`
(comment), keep only the characters of `keepChar` (whitespace and everything
else is stripped). parsemail.c hard-codes `nn = 80`. -/
def compressC (nn : Nat) (s : List Char) : List Char :=
  ((s.take nn).takeWhile (fun c => c ≠ '#')).filter keepChar

/-- `str2upper` (ASCII). -/
def upperL (s : List Char) : List Char := s.map Char.toUpper

/-- `str2lower` (ASCII). -/
def lowerL (s : List Char) : List Char := s.map Char.toLower

/-- `!strncmp(s, kw, n)`: the first `n` characters agree (when `s` is
shorter, its terminating NUL mismatches the keyword, and both sides below
disagree as lists). -/
def kwMatch (s : List Char) (kw : String) (n : Nat) : Bool :=
  s.take n == kw.toList.take n

/-- The process-global configuration flags of parserequest.c (lines 40-58)
that `SetKeyword` assigns. -/
structure Flags where
  LongFormat : Int
  PersonalConfiguration : Int
  HaveRadiativeDamping : Int
  HaveStarkDamping : Int
  HaveVanderWaalsDamping : Int
  HaveLande : Int
  HaveTermDesignation : Int
  ExtendedWaals : Int
  ZeemanPattern : Int
  StarkBroadening : Int
  FTPretrieval : Int
  Energy_in_inv_cm : Int
  Wavelength_in_vac : Int
  Wavelength_units : Int
  Isotopic_scaling_of_gf : Int
  HFS_splitting : Int
  deriving DecidableEq, Repr

/-- Initial values of the globals (parserequest.c lines 40-58):
everything 0 except `Isotopic_scaling_of_gf = 1`. -/
def Flags.init : Flags :=
  { LongFormat := 0, PersonalConfiguration := 0, HaveRadiativeDamping := 0
    HaveStarkDamping := 0, HaveVanderWaalsDamping := 0, HaveLande := 0
    HaveTermDesignation := 0, ExtendedWaals := 0, ZeemanPattern := 0
    StarkBroadening := 0, FTPretrieval := 0, Energy_in_inv_cm := 0
    Wavelength_in_vac := 0, Wavelength_units := 0, Isotopic_scaling_of_gf := 1
    HFS_splitting := 0 }

/-- `SetKeyword` (parserequest.c lines 164-394) on the already-uppercased
token. The C code is a sequence of `if` statements, each of which uppercases
`s1` in place (idempotent after the first), and on a match assigns the flag
and clears the token (`*s1='\0'`); since a cleared token can never match a
later keyword (all prefixes are nonempty), the sequence is equivalent to
this first-match chain, in source order with the source prefix lengths.
The `PERSONALCONFIGURATION` branch also templates the per-client
configuration file; that filesystem interaction is abstracted by `fsOk`
(config found or created successfully): on failure the flag is reset to 0
before returning (lines 189-260), the token staying cleared. The
error/progress `echo` lines it writes into the job stream are not modelled. -/
def SetKeywordU (fsOk : Bool) (u : List Char) (g0 : Flags) : List Char × Flags :=
  if kwMatch u "LONGFORMAT" 4 then ([], { g0 with LongFormat := 1 })
  else if kwMatch u "SHORTFORMAT" 5 then ([], { g0 with LongFormat := 0 })
  else if kwMatch u "PERSONALCONFIGURATION" 6 then
    ([], { g0 with PersonalConfiguration := if fsOk then 1 else 0 })
  else if kwMatch u "DEFAULTCONFIGURATION" 10 then
    ([], { g0 with PersonalConfiguration := 0 })
  else if kwMatch u "HAVERAD" 7 then ([], { g0 with HaveRadiativeDamping := 1 })
  else if kwMatch u "HAVESTARK" 9 then ([], { g0 with HaveStarkDamping := 1 })
  else if kwMatch u "HAVEWAALS" 9 then ([], { g0 with HaveVanderWaalsDamping := 1 })
  else if kwMatch u "HAVELANDE" 9 then ([], { g0 with HaveLande := 1 })
  else if kwMatch u "HAVETERM" 8 then ([], { g0 with HaveTermDesignation := 1 })
  else if kwMatch u "DEFAULTWAALS" 8 then ([], { g0 with ExtendedWaals := 0 })
  else if kwMatch u "EXTENDEDWAALS" 9 then ([], { g0 with ExtendedWaals := 1 })
  else if kwMatch u "ZEEMANPATTERN" 6 then ([], { g0 with ZeemanPattern := 1 })
  else if kwMatch u "STARKBROADENING" 5 then ([], { g0 with StarkBroadening := 1 })
  else if kwMatch u "VIAFTP" 6 then ([], { g0 with FTPretrieval := 1 })
  else if kwMatch u "ENERGYUNITEV" 11 then ([], { g0 with Energy_in_inv_cm := 0 })
  else if kwMatch u "ENERGYUNIT1CM" 12 then ([], { g0 with Energy_in_inv_cm := 1 })
  else if kwMatch u "MEDIUMAIR" 7 then ([], { g0 with Wavelength_in_vac := 0 })
  else if kwMatch u "MEDIUMVACUUM" 7 then ([], { g0 with Wavelength_in_vac := 1 })
  else if kwMatch u "WAVEUNITANGSTROM" 9 then ([], { g0 with Wavelength_units := 0 })
  else if kwMatch u "WAVEUNITNM" 9 then ([], { g0 with Wavelength_units := 1 })
  else if kwMatch u "WAVEUNIT1CM" 10 then ([], { g0 with Wavelength_units := 2 })
  else if kwMatch u "ISOTOPICSCALINGON" 17 then
    ([], { g0 with Isotopic_scaling_of_gf := 1 })
  else if kwMatch u "ISOTOPICSCALINGOFF" 18 then
    ([], { g0 with Isotopic_scaling_of_gf := 0 })
  else if kwMatch u "HFSSPLITTING" 8 then ([], { g0 with HFS_splitting := 1 })
  else if kwMatch u "NOHFSSPLITTING" 10 then ([], { g0 with HFS_splitting := 0 })
  else (u, g0)

/-- `SetKeyword` proper: the token is uppercased in place by the first
`str2upper(s1)` call, then matched. -/
def SetKeyword (fsOk : Bool) (s1 : List Char) (g0 : Flags) : List Char × Flags :=
  SetKeywordU fsOk (upperL s1) g0

lemma take_eq_append (ks : List Char) :
    ∀ l : List Char, l.take ks.length = ks → ∃ t, l = ks ++ t := by
  induction ks with
  | nil => intro l _; exact ⟨l, rfl⟩
  | cons a as ih =>
    intro l h
    cases l with
    | nil => simp at h
    | cons b bs =>
      simp only [List.length_cons, List.take_succ_cons, List.cons.injEq] at h
      obtain ⟨t, ht⟩ := ih bs h.2
      exact ⟨t, by rw [h.1, ht]; rfl⟩

/-- C4 (amended): a token whose uppercase form begins with a listed keyword
prefix (4 chars of LONGFORMAT, 5 of SHORTFORMAT, 6 of PERSONALCONFIGURATION,
6 of VIAFTP, 8 of HFSSPLITTING) has the corresponding flag set and is
cleared to the empty string; any token is either consumed (cleared) or
returned uppercased with the flags untouched — not returned verbatim. -/
theorem C4_SetKeyword_prefixes (fsOk : Bool) (s : List Char) (g : Flags) :
    ((upperL s).take 4 = "LONGFORMAT".toList.take 4 →
      SetKeyword fsOk s g = ([], { g with LongFormat := 1 })) ∧
    ((upperL s).take 5 = "SHORTFORMAT".toList.take 5 →
      SetKeyword fsOk s g = ([], { g with LongFormat := 0 })) ∧
    ((upperL s).take 6 = "PERSONALCONFIGURATION".toList.take 6 → fsOk = true →
      SetKeyword fsOk s g = ([], { g with PersonalConfiguration := 1 })) ∧
    ((upperL s).take 6 = "VIAFTP".toList.take 6 →
      SetKeyword fsOk s g = ([], { g with FTPretrieval := 1 })) ∧
    ((upperL s).take 8 = "HFSSPLITTING".toList.take 8 →
      SetKeyword fsOk s g = ([], { g with HFS_splitting := 1 })) ∧
    ((SetKeyword fsOk s g).1 = [] ∨ SetKeyword fsOk s g = (upperL s, g)) := by
  refine ⟨?_, ?_, ?_, ?_, ?_, ?_⟩
  · intro h
    obtain ⟨t, ht⟩ := take_eq_append ("LONGFORMAT".toList.take 4) (upperL s) h
    show SetKeywordU fsOk (upperL s) g = _
    rw [ht]
    rfl
  · intro h
    obtain ⟨t, ht⟩ := take_eq_append ("SHORTFORMAT".toList.take 5) (upperL s) h
    show SetKeywordU fsOk (upperL s) g = _
    rw [ht]
    rfl
  · intro h hfs
    subst hfs
    obtain ⟨t, ht⟩ := take_eq_append ("PERSONALCONFIGURATION".toList.take 6) (upperL s) h
    show SetKeywordU true (upperL s) g = _
    rw [ht]
    rfl
  · intro h
    obtain ⟨t, ht⟩ := take_eq_append ("VIAFTP".toList.take 6) (upperL s) h
    show SetKeywordU fsOk (upperL s) g = _
    rw [ht]
    rfl
  · intro h
    obtain ⟨t, ht⟩ := take_eq_append ("HFSSPLITTING".toList.take 8) (upperL s) h
    show SetKeywordU fsOk (upperL s) g = _
    rw [ht]
    rfl
  · show (SetKeywordU fsOk (upperL s) g).1 = [] ∨ SetKeywordU fsOk (upperL s) g = (upperL s, g)
    unfold SetKeywordU
    by_cases h1 : kwMatch (upperL s) "LONGFORMAT" 4 = true
    · rw [if_pos h1]; exact Or.inl rfl
    rw [if_neg h1]
    by_cases h2 : kwMatch (upperL s) "SHORTFORMAT" 5 = true
    · rw [if_pos h2]; exact Or.inl rfl
    rw [if_neg h2]
    by_cases h3 : kwMatch (upperL s) "PERSONALCONFIGURATION" 6 = true
    · rw [if_pos h3]; exact Or.inl rfl
    rw [if_neg h3]
    by_cases h4 : kwMatch (upperL s) "DEFAULTCONFIGURATION" 10 = true
    · rw [if_pos h4]; exact Or.inl rfl
    rw [if_neg h4]
    by_cases h5 : kwMatch (upperL s) "HAVERAD" 7 = true
    · rw [if_pos h5]; exact Or.inl rfl
    rw [if_neg h5]
    by_cases h6 : kwMatch (upperL s) "HAVESTARK" 9 = true
    · rw [if_pos h6]; exact Or.inl rfl
    rw [if_neg h6]
    by_cases h7 : kwMatch (upperL s) "HAVEWAALS" 9 = true
    · rw [if_pos h7]; exact Or.inl rfl
    rw [if_neg h7]
    by_cases h8 : kwMatch (upperL s) "HAVELANDE" 9 = true
    · rw [if_pos h8]; exact Or.inl rfl
    rw [if_neg h8]
    by_cases h9 : kwMatch (upperL s) "HAVETERM" 8 = true
    · rw [if_pos h9]; exact Or.inl rfl
    rw [if_neg h9]
    by_cases h10 : kwMatch (upperL s) "DEFAULTWAALS" 8 = true
    · rw [if_pos h10]; exact Or.inl rfl
    rw [if_neg h10]
    by_cases h11 : kwMatch (upperL s) "EXTENDEDWAALS" 9 = true
    · rw [if_pos h11]; exact Or.inl rfl
    rw [if_neg h11]
    by_cases h12 : kwMatch (upperL s) "ZEEMANPATTERN" 6 = true
    · rw [if_pos h12]; exact Or.inl rfl
    rw [if_neg h12]
    by_cases h13 : kwMatch (upperL s) "STARKBROADENING" 5 = true
    · rw [if_pos h13]; exact Or.inl rfl
    rw [if_neg h13]
    by_cases h14 : kwMatch (upperL s) "VIAFTP" 6 = true
    · rw [if_pos h14]; exact Or.inl rfl
    rw [if_neg h14]
    by_cases h15 : kwMatch (upperL s) "ENERGYUNITEV" 11 = true
    · rw [if_pos h15]; exact Or.inl rfl
    rw [if_neg h15]
    by_cases h16 : kwMatch (upperL s) "ENERGYUNIT1CM" 12 = true
    · rw [if_pos h16]; exact Or.inl rfl
    rw [if_neg h16]
    by_cases h17 : kwMatch (upperL s) "MEDIUMAIR" 7 = true
    · rw [if_pos h17]; exact Or.inl rfl
    rw [if_neg h17]
    by_cases h18 : kwMatch (upperL s) "MEDIUMVACUUM" 7 = true
    · rw [if_pos h18]; exact Or.inl rfl
    rw [if_neg h18]
    by_cases h19 : kwMatch (upperL s) "WAVEUNITANGSTROM" 9 = true
    · rw [if_pos h19]; exact Or.inl rfl
    rw [if_neg h19]
    by_cases h20 : kwMatch (upperL s) "WAVEUNITNM" 9 = true
    · rw [if_pos h20]; exact Or.inl rfl
    rw [if_neg h20]
    by_cases h21 : kwMatch (upperL s) "WAVEUNIT1CM" 10 = true
    · rw [if_pos h21]; exact Or.inl rfl
    rw [if_neg h21]
    by_cases h22 : kwMatch (upperL s) "ISOTOPICSCALINGON" 17 = true
    · rw [if_pos h22]; exact Or.inl rfl
    rw [if_neg h22]
    by_cases h23 : kwMatch (upperL s) "ISOTOPICSCALINGOFF" 18 = true
    · rw [if_pos h23]; exact Or.inl rfl
    rw [if_neg h23]
    by_cases h24 : kwMatch (upperL s) "HFSSPLITTING" 8 = true
    · rw [if_pos h24]; exact Or.inl rfl
    rw [if_neg h24]
    by_cases h25 : kwMatch (upperL s) "NOHFSSPLITTING" 10 = true
    · rw [if_pos h25]; exact Or.inl rfl
    rw [if_neg h25]
    exact Or.inr rfl

/-- Counterexample to C4 as stated: the token `hello` matches no keyword
prefix yet is not returned unchanged — `SetKeyword` uppercases it in place
(`str2upper(s1)` runs before every comparison). -/
theorem C4_SetKeyword_prefixes_cex :
    SetKeyword true ("hello".toList) Flags.init = ("HELLO".toList, Flags.init) ∧
    ("HELLO".toList : List Char) ≠ "hello".toList := by
  exact ⟨by decide, by decide⟩

/-- Witness for the amended C4 at the lowercase token `viaftp`. -/
theorem C4_SetKeyword_prefixes_witness :
    SetKeyword true ("viaftp".toList) Flags.init =
      ([], { Flags.init with FTPretrieval := 1 }) :=
  (C4_SetKeyword_prefixes true ("viaftp".toList) Flags.init).2.2.2.1 (by decide)

/-- Outcome of the ExtractAll wavelength-range line once a numeric pair has
been parsed. -/
inductive EAPairResult where
  | accepted : EAPairResult
  | badRange : EAPairResult
  deriving DecidableEq, Repr

/-- Range check of `ExtractAll` (parserequest.c lines 650-655): the parsed
pair is rejected — `echo FAILURE: Bad wavelength range` into the result
stream and `return EXIT_FAILURE` — iff `wlleft > wlright || wlleft <= 0`;
`ExtractElement` (line 821) and `ExtractStellar` (line 1007) use the same
check. -/
def ExtractAllRange (wlleft wlright : ℚ) : EAPairResult :=
  if wlleft > wlright ∨ wlleft ≤ 0 then .badRange else .accepted

/-- The acceptance condition as the claim states it (`wl_left < wl_right`
and `wl_right > 0`), for comparison with the code. -/
def ExtractAllRangeClaim (wlleft wlright : ℚ) : EAPairResult :=
  if wlleft < wlright ∧ 0 < wlright then .accepted else .badRange

/-- Counterexample to C5 as stated: the degenerate pair `(5, 5)` violates
`wl_left < wl_right`, so by the claim a FAILURE banner should be emitted,
but the code accepts it (`wlleft > wlright` and `wlleft <= 0` are both
false). -/
theorem C5_extractall_range_cex :
    ExtractAllRange 5 5 = .accepted ∧ ExtractAllRangeClaim 5 5 = .badRange := by
  exact ⟨by norm_num [ExtractAllRange], by norm_num [ExtractAllRangeClaim]⟩

/-- C5 (amended): the ExtractAll wavelength-range line is accepted iff
`wl_left ≤ wl_right` and `wl_left > 0` (equality of the endpoints is
allowed; positivity is required of the left endpoint); otherwise the
FAILURE banner is echoed and the parse returns failure. -/
theorem C5_extractall_range (wlleft wlright : ℚ) :
    ExtractAllRange wlleft wlright = .accepted ↔ wlleft ≤ wlright ∧ 0 < wlleft := by
  unfold ExtractAllRange
  by_cases h : wlleft > wlright ∨ wlleft ≤ 0
  · rw [if_pos h]
    constructor
    · intro hc; exact absurd hc (by simp)
    · intro hc; rcases h with h | h
      · exact absurd hc.1 (not_le.mpr h)
      · exact absurd hc.2 (not_lt.mpr h)
  · rw [if_neg h]
    push_neg at h
    exact ⟨fun _ => ⟨h.1, h.2⟩, fun _ => rfl⟩

/-- Scanner of `swallow_quotes` (parsemail.c lines 53-70): copy characters
outside quote regions, toggling on the opening/closing characters; returns
the copied text and whether a quote region was left open. -/
def sqGo (openq closeq : Char) : List Char → Bool → List Char × Bool
  | [], q => ([], q)
  | c :: cs, q =>
    if c = openq ∧ q = false then sqGo openq closeq cs true
    else if c = closeq ∧ q = true then sqGo openq closeq cs false
    else if q = false then
      ((sqGo openq closeq cs q).1.cons c, (sqGo openq closeq cs q).2)
    else sqGo openq closeq cs q

/-- `swallow_quotes(t, s, open_q, close_q)`: parts of `s` enclosed in the
quote pair are not copied; if a quote is left unclosed the result is the
empty string (`len = 0`). -/
def swallow_quotes (s : List Char) (openq closeq : Char) : List Char :=
  if (sqGo openq closeq s false).2 then [] else (sqGo openq closeq s false).1

/-- `*strchr(s, c) = '\0'` — truncate at the first occurrence of `c`
(no-op when absent). -/
def truncAt (c : Char) (s : List Char) : List Char :=
  s.takeWhile (fun x => x ≠ c)

/-- `strcpy(address, strchr(s, c) + 1)` — keep the text after the first
occurrence of `c`. -/
def afterFirst (c : Char) (s : List Char) : List Char :=
  (s.dropWhile (fun x => x ≠ c)).tail

/-- `*strrchr(s, c) = '\0'` — truncate at the last occurrence of `c`
(call sites guard on presence). -/
def cutAtLast (c : Char) (s : List Char) : List Char :=
  ((s.reverse.dropWhile (fun x => x ≠ c)).tail).reverse

/-- `strcpy(s, strrchr(s, c) + 1)` — keep the text after the last
occurrence of `c`; when `c` is absent the string is unchanged, matching the
`if(c!=NULL)` guard in the source. -/
def afterLast (c : Char) (s : List Char) : List Char :=
  (s.reverse.takeWhile (fun x => x ≠ c)).reverse

/-- Address extraction from a `From:` line buffer `s` (parsemail.c lines
319-338): strip `"…"` and `(…)`, truncate at `'>'` — else at a blank — then
at a newline, keep what follows a `'<'` if present, clear a mail-server
suffix after the last `'>'`, and trim any leading `path:` and UUCP `!`
segments. -/
def extractAddressFrom (s : List Char) : List Char :=
  let s1 := swallow_quotes (s.drop 6) '"' '"'
  let s2 := swallow_quotes s1 '(' ')'
  let s3 := if '>' ∈ s2 then truncAt '>' s2
            else if ' ' ∈ s2 then truncAt ' ' s2
            else s2
  let s4 := truncAt '\n' s3
  let a1 := if '<' ∈ s4 then afterFirst '<' s4 else s4
  let a2 := if '>' ∈ a1 then cutAtLast '>' a1 else a1
  let a3 := afterLast ':' a2
  afterLast '!' a3

/-- The address-truncation algorithm as claim C7 words it: after stripping
quotes and parentheses, truncate at the first occurrence among `'>'`,
blank and newline — whichever comes first — then keep what follows a `'<'`. -/
def extractAddressClaim (s : List Char) : List Char :=
  let s1 := swallow_quotes (s.drop 6) '"' '"'
  let s2 := swallow_quotes s1 '(' ')'
  let s3 := s2.takeWhile (fun c => ¬(c = '>' ∨ c = ' ' ∨ c = '\n'))
  if '<' ∈ s3 then afterFirst '<' s3 else s3

/-- Counterexample to C7 as stated: in `From: ab cd>ef` the blank comes
before the `'>'`, so by the claim the address would be truncated to `ab`,
but the code truncates at the `'>'` (which takes priority regardless of
position) and yields `ab cd`. -/
theorem C7_address_truncation_cex :
    extractAddressFrom ("From: ab cd>ef\n".toList) = "ab cd".toList ∧
    extractAddressClaim ("From: ab cd>ef\n".toList) = "ab".toList ∧
    ("ab cd".toList : List Char) ≠ "ab".toList := by
  exact ⟨by decide, by decide, by decide⟩

lemma truncAt_eq_take (c : Char) :
    ∀ s : List Char, truncAt c s = s.take (List.indexOf c s) := by
  intro s
  induction s with
  | nil => rfl
  | cons a as ih =>
    by_cases h : a = c
    · subst h
      simp [truncAt, List.takeWhile_cons, List.indexOf_cons_self]
    · rw [show truncAt c (a :: as) = a :: truncAt c as from by simp [truncAt, h]]
      rw [List.indexOf_cons_ne as h, List.take_succ_cons, ih]

lemma afterFirst_eq_drop (c : Char) :
    ∀ s : List Char, afterFirst c s = s.drop (List.indexOf c s + 1) := by
  intro s
  induction s with
  | nil => rfl
  | cons a as ih =>
    by_cases h : a = c
    · subst h
      simp [afterFirst, List.dropWhile_cons, List.indexOf_cons_self]
    · rw [show afterFirst c (a :: as) = afterFirst c as from by simp [afterFirst, h]]
      rw [List.indexOf_cons_ne as h, ih]
      rfl

/-- The address-truncation pipeline as the amended claim words it, phrased
through first-occurrence indices: the first `'>'` wins regardless of any
earlier blank; only in its absence the first blank truncates; the newline is
cut afterwards; a `'<'` keeps the following text. -/
def extractAddressAmended (s : List Char) : List Char :=
  let s1 := swallow_quotes (s.drop 6) '"' '"'
  let s2 := swallow_quotes s1 '(' ')'
  let s3 := if '>' ∈ s2 then s2.take (List.indexOf '>' s2)
            else if ' ' ∈ s2 then s2.take (List.indexOf ' ' s2)
            else s2
  let s4 := s3.take (List.indexOf '\n' s3)
  let a1 := if '<' ∈ s4 then s4.drop (List.indexOf '<' s4 + 1) else s4
  let a2 := if '>' ∈ a1 then cutAtLast '>' a1 else a1
  afterLast '!' (afterLast ':' a2)

/-- C7 (amended): the sender address extracted from a `From:` line is, after
the quote and parenthesis stripping, truncated at the first `'>'` when one
occurs anywhere (even after a blank); otherwise at the first blank; then at
the first newline; and when a `'<'` is present only the text after the
first `'<'` is kept (before the trailing `'>'`, `path:` and `!` cleanup). -/
theorem C7_address_truncation (s : List Char) :
    extractAddressFrom s = extractAddressAmended s := by
  unfold extractAddressFrom extractAddressAmended
  simp only [truncAt_eq_take, afterFirst_eq_drop]

/-- The registry comparison of `CheckClient` (parsemail.c line 91):
`!strncmp(s1, s, (l<strlen(s))?l:strlen(s))` — prefix equality over the
length of the shorter of the two strings (both already lowercased). -/
def prefixMatch (s1 s : List Char) : Bool :=
  s1.take (min s1.length s.length) == s.take (min s1.length s.length)

/-- Client-name extraction from a `#$` comment line (parsemail.c lines
82-88): blank the first two characters, blank every non-alphabetic
character, then `compress` (which strips the blanks and keeps only the
alphabetic tail of the first 80 characters). -/
def clientNameOf (s : List Char) : List Char :=
  compressC 80 (((s.set 0 ' ').set 1 ' ').map (fun c => if c.isAlpha then c else ' '))

/-- Scanning loop of `CheckClient` (parsemail.c lines 80-99): comment lines
starting `#$` update the candidate client name, other `#` lines are
skipped, and any other line is lowercased and compared; the first match
returns 1 with the last name seen, otherwise the name is cleared and 0
returned. -/
def CheckClientGo (s1 : List Char) : List (List Char) → List Char → Bool × List Char
  | [], _ => (false, [])
  | s :: rest, name =>
    if s.headD '\x00' = '#' then
      if s.getD 1 '\x00' ≠ '$' then CheckClientGo s1 rest name
      else CheckClientGo s1 rest (clientNameOf s)
    else
      if prefixMatch s1 (lowerL s) then (true, name)
      else CheckClientGo s1 rest name

/-- `CheckClient(register, address, ClientName)`: the address is lowercased
once up front; the caller has cleared `ClientName` beforehand at both call
sites (parsemail.c lines 340 and 348). -/
def CheckClient (lines : List (List Char)) (address : List Char) : Bool × List Char :=
  CheckClientGo (lowerL address) lines []

/-- The two-registry authentication of the mail-splitter main loop
(parsemail.c lines 340-353): consult the global registry first; only when it
produced no client name consult the local registry, and append `_local` to a
name found there. -/
def authenticate (global localreg : Option (List (List Char)))
    (address : List Char) : List Char :=
  let name1 := match global with
    | some ls => (CheckClient ls address).2
    | none => []
  if name1 = [] then
    match localreg with
    | some ls =>
      if (CheckClient ls address).2 ≠ [] then
        (CheckClient ls address).2 ++ "_local".toList
      else (CheckClient ls address).2
    | none => []
  else name1

lemma CheckClientGo_fst (s1 : List Char) :
    ∀ ls name, (CheckClientGo s1 ls name).1 = true ↔
      ∃ s ∈ ls, s.headD '\x00' ≠ '#' ∧ prefixMatch s1 (lowerL s) = true := by
  intro ls
  induction ls with
  | nil => intro name; simp [CheckClientGo]
  | cons s rest ih =>
    intro name
    unfold CheckClientGo
    by_cases h1 : s.headD '\x00' = '#'
    · rw [if_pos h1]
      have step : ∀ nm, (CheckClientGo s1 rest nm).1 = true ↔
          ∃ t ∈ s :: rest, t.headD '\x00' ≠ '#' ∧ prefixMatch s1 (lowerL t) = true := by
        intro nm
        rw [ih nm]
        constructor
        · rintro ⟨t, ht, h⟩; exact ⟨t, List.mem_cons_of_mem _ ht, h⟩
        · rintro ⟨t, ht, hh, hp⟩
          rcases List.mem_cons.mp ht with rfl | ht'
          · exact absurd h1 hh
          · exact ⟨t, ht', hh, hp⟩
      by_cases h2 : s.getD 1 '\x00' ≠ '$'
      · rw [if_pos h2]; exact step name
      · rw [if_neg h2]; exact step (clientNameOf s)
    · rw [if_neg h1]
      by_cases h3 : prefixMatch s1 (lowerL s) = true
      · rw [if_pos h3]
        constructor
        · intro _; exact ⟨s, List.mem_cons_self s rest, h1, h3⟩
        · intro _; rfl
      · rw [if_neg h3, ih name]
        constructor
        · rintro ⟨t, ht, h⟩; exact ⟨t, List.mem_cons_of_mem _ ht, h⟩
        · rintro ⟨t, ht, hh, hp⟩
          rcases List.mem_cons.mp ht with rfl | ht'
          · exact absurd hp h3
          · exact ⟨t, ht', hh, hp⟩

/-- C6: `CheckClient` matches a sender address against a registry iff some
non-comment registry line agrees with the lowercased address on the length
of the shorter string (prefix equality on the shorter string); the global
registry is consulted first, and an address matched only by the local
registry yields the client name with `_local` appended. -/
theorem C6_authenticate (ls : List (List Char)) (address : List Char)
    (global localreg : Option (List (List Char))) :
    ((CheckClient ls address).1 = true ↔
      ∃ s ∈ ls, s.headD '\x00' ≠ '#' ∧
        prefixMatch (lowerL address) (lowerL s) = true) ∧
    (∀ gl, global = some gl → (CheckClient gl address).2 ≠ [] →
      authenticate global localreg address = (CheckClient gl address).2) ∧
    (∀ ll, (match global with
            | some gl => (CheckClient gl address).2
            | none => []) = [] →
      localreg = some ll → (CheckClient ll address).2 ≠ [] →
      authenticate global localreg address =
        (CheckClient ll address).2 ++ "_local".toList) := by
  refine ⟨CheckClientGo_fst (lowerL address) ls [], ?_, ?_⟩
  · intro gl hgl hne
    subst hgl
    unfold authenticate
    rw [if_neg hne]
  · intro ll hglobal hll hne
    subst hll
    unfold authenticate
    rw [hglobal, if_pos rfl]
    exact if_pos hne

/-- Concrete registry used to witness C6: one `#$` name line and one
address-prefix line. -/
def regW : List (List Char) :=
  ["#$ Uppsala Office".toList, "someone@astro.uu.se".toList]

/-- Witness for C6: the address matches the concrete registry; consulted as
the global registry the name is returned as-is, consulted as the local
registry (with no global one) it carries the `_local` suffix. -/
theorem C6_authenticate_witness :
    authenticate (some regW) none ("Someone@Astro.UU.SE".toList) =
      (CheckClient regW ("Someone@Astro.UU.SE".toList)).2 ∧
    authenticate none (some regW) ("Someone@Astro.UU.SE".toList) =
      (CheckClient regW ("Someone@Astro.UU.SE".toList)).2 ++ "_local".toList := by
  constructor
  · exact (C6_authenticate regW ("Someone@Astro.UU.SE".toList) (some regW) none).2.1
      regW rfl (by decide)
  · exact (C6_authenticate regW ("Someone@Astro.UU.SE".toList) none (some regW)).2.2
      regW rfl rfl (by decide)

/-- Single character standing for the ASCII apostrophe written into the
select input file. -/
def quoteCh : Char := Char.ofNat 39

/-- The element-symbol table of `GetElementNumber` (parserequest.c lines
398-408): 99 two-character names, one-letter symbols padded with a blank. -/
def elements : List (List Char) := [
    "H ".toList, "HE".toList, "LI".toList, "BE".toList, "B ".toList, "C ".toList,
    "N ".toList, "O ".toList, "F ".toList, "NE".toList, "NA".toList, "MG".toList,
    "AL".toList, "SI".toList, "P ".toList, "S ".toList, "CL".toList, "AR".toList,
    "K ".toList, "CA".toList, "SC".toList, "TI".toList, "V ".toList, "CR".toList,
    "MN".toList, "FE".toList, "CO".toList, "NI".toList, "CU".toList, "ZN".toList,
    "GA".toList, "GE".toList, "AS".toList, "SE".toList, "BR".toList, "KR".toList,
    "RB".toList, "SR".toList, "Y ".toList, "ZR".toList, "NB".toList, "MO".toList,
    "TC".toList, "RU".toList, "RH".toList, "PD".toList, "AG".toList, "CD".toList,
    "IN".toList, "SN".toList, "SB".toList, "TE".toList, "I ".toList, "XE".toList,
    "CS".toList, "BA".toList, "LA".toList, "CE".toList, "PR".toList, "ND".toList,
    "PM".toList, "SM".toList, "EU".toList, "GD".toList, "TB".toList, "DY".toList,
    "HO".toList, "ER".toList, "TM".toList, "YB".toList, "LU".toList, "HF".toList,
    "TA".toList, "W ".toList, "RE".toList, "OS".toList, "IR".toList, "PT".toList,
    "AU".toList, "HG".toList, "TL".toList, "PB".toList, "BI".toList, "PO".toList,
    "AT".toList, "RN".toList, "FR".toList, "RA".toList, "AC".toList, "TH".toList,
    "PA".toList, "U ".toList, "NP".toList, "PU".toList, "AM".toList, "CM".toList,
    "BK".toList, "CF".toList, "ES".toList]

/-- `GetElementNumber(elname)` (parserequest.c lines 396-421): uppercase the
name in place, scan the table comparing the first two characters; on a hit
return the 1-based element number and lowercase the second character of the
name; otherwise return -1 (the name left uppercased). -/
def GetElementNumber (elname : List Char) : Int × List Char :=
  let u := upperL elname
  let idx := elements.findIdx (fun e => u.take 2 == e.take 2)
  if idx < elements.length then
    (idx + 1, if u.length > 1 then u.set 1 (Char.toLower (u.getD 1 ' ')) else u)
  else (-1, u)

/-- Token-pointer advance of the recognised-element paths of `CheckAbund`
(parserequest.c lines 435-440 etc.): `next = strchr(next, ','); if(next)
{ next++; if(*next == '\0') next = NULL; }`. -/
def advanceComma (next : List Char) : Option (List Char) :=
  if ',' ∈ next then
    if afterFirst ',' next = [] then none else some (afterFirst ',' next)
  else none

/-- Token-pointer advance of the unknown-element path (parserequest.c line
474): `next = strchr(next, ','); if(next) next++;` — without the
empty-string check. -/
def advanceCommaRaw (next : List Char) : Option (List Char) :=
  if ',' ∈ next then some (afterFirst ',' next) else none

/-- `CheckAbund(next, outs)` (parserequest.c lines 423-476). The numeric
round-trip `sscanf(…, "%lg", &abn); sprintf(…, ":%.2f")` is genuine C
floating point and is abstracted by the parameter `f2`, mapping the text
after the colon to the formatted abundance value. Returns the advanced
token pointer (`none` models the NULL return) and the `outs` buffer:
`'X:v',` for a known one-letter element, `'M/H:v',` for metallicity,
`'Xx:v',` for a known two-letter element, and the first three characters of
the token when the element is unknown. -/
def CheckAbund (f2 : List Char → List Char) (next : List Char) :
    Option (List Char) × List Char :=
  if next.getD 1 '\x00' = ':' then
    let g := GetElementNumber [next.headD '\x00', ' ']
    if g.1 > 0 then
      (advanceComma next,
        quoteCh :: g.2.headD ' ' :: ':' :: (f2 (next.drop 2) ++ [quoteCh, ',']))
    else (advanceCommaRaw next, next.take 3)
  else if next.take 3 = "MH:".toList ∨ next.take 4 = "m/h:".toList then
    (advanceComma next,
      (quoteCh :: "M/H:".toList) ++ f2 (next.drop 3) ++ [quoteCh, ','])
  else if next.getD 2 '\x00' = ':' then
    let g := GetElementNumber [next.headD '\x00', next.getD 1 '\x00']
    if g.1 > 0 then
      (advanceComma next,
        quoteCh :: (g.2 ++ ':' :: f2 (next.drop 3)) ++ [quoteCh, ','])
    else (advanceCommaRaw next, next.take 3)
  else (advanceCommaRaw next, next.take 3)

/-- State of the abundance-block emitter of `ExtractStellar` (parserequest.c
lines 1131-1158): the running line length `i`, the select-input line being
assembled, the completed lines, the number of unknown-element warnings
echoed, and the configuration flags (updated by `SetKeyword` per line). -/
structure AbundState where
  i : Nat
  cur : List Char
  outLines : List (List Char)
  warns : Nat
  flags : Flags

/-- Processing of one `outs` token (parserequest.c lines 1144-1156):
a well-formed token (`strlen(outs) >= 5`) is appended to the select input,
starting a new line first when the current line already exceeds 66
characters; anything shorter is an unknown element — a WARNING is echoed
into the result stream and the token is skipped. -/
def abundToken (st : AbundState) (outs : List Char) : AbundState :=
  if outs.length ≥ 5 then
    let st1 := if st.i > 66 then
      { st with outLines := st.outLines ++ [st.cur], cur := [], i := 0 } else st
    { st1 with cur := st1.cur ++ outs, i := st1.i + outs.length }
  else { st with warns := st.warns + 1 }

/-- Inner token loop `while(next != NULL)` (parserequest.c lines 1140-1157),
run on fuel: each advance drops at least the text up to a comma, so
`next.length + 1` rounds always suffice. -/
def abundTokens (f2 : List Char → List Char) :
    Nat → List Char → AbundState → AbundState
  | 0, _, st => st
  | fuel + 1, next, st =>
    let r := CheckAbund f2 next
    let st1 := abundToken st r.2
    match r.1 with
    | none => st1
    | some nx => abundTokens f2 fuel nx st1

/-- Outer line loop state: `stopped` records that `ENDREQUEST` was seen. -/
structure AbundLoop where
  st : AbundState
  stopped : Bool

/-- One line of the abundance block (parserequest.c lines 1132-1158):
compress to 320 characters, run `SetKeyword`, skip empty tokens, stop at
`ENDREQUEST`, otherwise feed the comma-separated tokens through
`CheckAbund`. -/
def abundLineStep (f2 : List Char → List Char) (fsOk : Bool)
    (a : AbundLoop) (s : List Char) : AbundLoop :=
  if a.stopped then a
  else
    let r := SetKeyword fsOk (compressC 320 s) a.st.flags
    let st := { a.st with flags := r.2 }
    if r.1 = [] then { st := st, stopped := false }
    else if r.1.take 10 = "ENDREQUEST".toList then { st := st, stopped := true }
    else { st := abundTokens f2 (r.1.length + 1) r.1 st, stopped := false }

/-- Block epilogue (parserequest.c lines 1159-1164): flush a line exceeding
66 characters, then write `'END'`, `'Synth'`, `'select.out'` and the
line-cap number (`MAX_LINES_PER_FTP` or `MAX_LINES_PER_REQUEST`, a
configuration constant passed in as `maxLine`). -/
def abundFinish (maxLine : List Char) (st : AbundState) : List (List Char) :=
  let acc := if st.i > 66 then st.outLines ++ [st.cur] else st.outLines
  let cur := if st.i > 66 then ([] : List Char) else st.cur
  acc ++ [cur ++ (quoteCh :: "END".toList ++ [quoteCh]),
    quoteCh :: "Synth".toList ++ [quoteCh],
    quoteCh :: "select.out".toList ++ [quoteCh],
    maxLine]

/-- The whole abundance block of `ExtractStellar`: the select-input lines it
writes and the number of unknown-element warnings. -/
def ExtractStellarAbund (f2 : List Char → List Char) (fsOk : Bool)
    (flags0 : Flags) (lines : List (List Char)) (maxLine : List Char) :
    List (List Char) × Nat :=
  let r := lines.foldl (abundLineStep f2 fsOk)
    { st := { i := 0, cur := [], outLines := [], warns := 0, flags := flags0 }
      stopped := false }
  (abundFinish maxLine r.st, r.st.warns)

/-- Concrete stand-in for the `%.2f` abundance formatting, adequate for
values already written with two decimals. -/
def numF2 : List Char → List Char :=
  fun s => s.takeWhile (fun c => c.isDigit || c = '.' || c = '-' || c = '+')

/-- An abundance line with seven valid element tokens of eleven output
characters each. -/
def abundLineCex : List Char :=
  "FE:-4.67,FE:-4.67,FE:-4.67,FE:-4.67,FE:-4.67,FE:-4.67,FE:-4.67".toList

set_option maxRecDepth 8000 in
/-- Counterexample to C8 as stated: on this abundance block the first line
written to the select input file is 77 characters long — the loop starts a
new line only once the running length exceeds 66, so a line can exceed 66
by up to one token. -/
theorem C8_abund_wrap_cex :
    ((ExtractStellarAbund numF2 true Flags.init [abundLineCex]
      ("100000".toList)).1.headD []).length = 77 ∧ 66 < 77 := by
  exact ⟨by decide, by decide⟩

lemma getElementNumber_len2 (a b : Char) : ((GetElementNumber [a, b]).2).length = 2 := by
  simp only [GetElementNumber]
  split_ifs <;> simp [upperL]

lemma CheckAbund_len (f2 : List Char → List Char) (L : Nat)
    (hf : ∀ s, (f2 s).length + 7 ≤ L) (next : List Char) :
    (CheckAbund f2 next).2.length ≤ L := by
  have hL : 7 ≤ L := by have := hf []; omega
  have hd2 := hf (next.drop 2)
  have hd3 := hf (next.drop 3)
  simp only [CheckAbund]
  split_ifs <;>
    simp [getElementNumber_len2, List.length_take] <;> omega

lemma CheckAbund_shape (f2 : List Char → List Char) (next : List Char) :
    5 ≤ (CheckAbund f2 next).2.length ∨ (CheckAbund f2 next).2 = next.take 3 := by
  simp only [CheckAbund]
  split_ifs
  · left; simp
  · right; rfl
  · left; simp
  · left; simp [getElementNumber_len2]; omega
  · right; rfl
  · right; rfl

/-- Invariant of the abundance emitter: the counter `i` tracks the current
line's length, no line (current or completed) is longer than `66` plus the
longest token. -/
def AbundInv (L : Nat) (st : AbundState) : Prop :=
  st.i = st.cur.length ∧ st.i ≤ 66 + L ∧ ∀ l ∈ st.outLines, l.length ≤ 66 + L

lemma abundToken_inv (L : Nat) (st : AbundState) (outs : List Char)
    (hI : AbundInv L st) (ho : outs.length ≤ L) : AbundInv L (abundToken st outs) := by
  obtain ⟨h1, h2, h3⟩ := hI
  unfold abundToken
  by_cases h5 : outs.length ≥ 5
  · rw [if_pos h5]
    by_cases h66 : st.i > 66
    · simp only [if_pos h66]
      refine ⟨by simp, by simp; omega, ?_⟩
      intro l hl
      rcases List.mem_append.mp hl with h | h
      · exact h3 l h
      · rw [List.mem_singleton] at h; subst h; omega
    · simp only [if_neg h66]
      exact ⟨by simp [h1], by simp; omega, h3⟩
  · rw [if_neg h5]
    exact ⟨h1, h2, h3⟩

lemma abundTokens_inv (f2 : List Char → List Char) (L : Nat)
    (hf : ∀ s, (f2 s).length + 7 ≤ L) :
    ∀ fuel next st, AbundInv L st → AbundInv L (abundTokens f2 fuel next st) := by
  intro fuel
  induction fuel with
  | zero => intro next st h; exact h
  | succ f ih =>
    intro next st h
    unfold abundTokens
    have h1 := abundToken_inv L st (CheckAbund f2 next).2 h (CheckAbund_len f2 L hf next)
    cases hnx : (CheckAbund f2 next).1 with
    | none => simp only [hnx]; exact h1
    | some nx => simp only [hnx]; exact ih nx _ h1

lemma abundLineStep_inv (f2 : List Char → List Char) (fsOk : Bool) (L : Nat)
    (hf : ∀ s, (f2 s).length + 7 ≤ L) (a : AbundLoop) (s : List Char)
    (h : AbundInv L a.st) : AbundInv L (abundLineStep f2 fsOk a s).st := by
  unfold abundLineStep
  by_cases h0 : a.stopped
  · rw [if_pos h0]; exact h
  · rw [if_neg h0]
    by_cases h1 : (SetKeyword fsOk (compressC 320 s) a.st.flags).1 = []
    · simp only [if_pos h1]
      exact ⟨h.1, h.2.1, h.2.2⟩
    · simp only [if_neg h1]
      by_cases h2 : (SetKeyword fsOk (compressC 320 s) a.st.flags).1.take 10 =
          "ENDREQUEST".toList
      · simp only [if_pos h2]
        exact ⟨h.1, h.2.1, h.2.2⟩
      · simp only [if_neg h2]
        exact abundTokens_inv f2 L hf _ _ _ ⟨h.1, h.2.1, h.2.2⟩

lemma abundFold_inv (f2 : List Char → List Char) (fsOk : Bool) (L : Nat)
    (hf : ∀ s, (f2 s).length + 7 ≤ L) :
    ∀ (lines : List (List Char)) (a : AbundLoop), AbundInv L a.st →
      AbundInv L (lines.foldl (abundLineStep f2 fsOk) a).st := by
  intro lines
  induction lines with
  | nil => intro a h; exact h
  | cons s rest ih =>
    intro a h
    exact ih _ (abundLineStep_inv f2 fsOk L hf a s h)

/-- C8 (amended): in the ExtractStellar abundance block every line written
to the select input file is at most `66 + L` characters long where `L`
bounds the formatted token length (a new line is started only once the
running length exceeds 66, so a line may exceed 66 by up to one token);
tokens shorter than five characters — exactly the unknown-element tokens,
which `CheckAbund` cuts to at most three characters — are warned about and
skipped; and the block is terminated by `'END'` (on its own line exactly
when the final token line exceeded 66 characters), followed by the
`'Synth'`, `'select.out'` and line-cap trailer. -/
theorem C8_abund_block (f2 : List Char → List Char) (fsOk : Bool)
    (flags0 : Flags) (lines : List (List Char)) (maxLine : List Char) (L : Nat)
    (hf : ∀ s, (f2 s).length + 7 ≤ L)
    (hm : maxLine.length ≤ 66 + L) :
    (∀ l ∈ (ExtractStellarAbund f2 fsOk flags0 lines maxLine).1,
      l.length ≤ 66 + L) ∧
    (∀ st outs, outs.length < 5 →
      abundToken st outs = { st with warns := st.warns + 1 }) ∧
    (∀ next, 5 ≤ (CheckAbund f2 next).2.length ∨
      (CheckAbund f2 next).2 = next.take 3) ∧
    (∃ acc cur, (ExtractStellarAbund f2 fsOk flags0 lines maxLine).1 =
      acc ++ [cur ++ (quoteCh :: "END".toList ++ [quoteCh]),
        quoteCh :: "Synth".toList ++ [quoteCh],
        quoteCh :: "select.out".toList ++ [quoteCh],
        maxLine]) := by
  have hL : 7 ≤ L := by have := hf []; omega
  have hinv := abundFold_inv f2 fsOk L hf lines
    { st := { i := 0, cur := [], outLines := [], warns := 0, flags := flags0 }
      stopped := false }
    ⟨rfl, by simp, by intro l hl; simp at hl⟩
  refine ⟨?_, ?_, fun next => CheckAbund_shape f2 next, ?_⟩
  · intro l hl
    obtain ⟨h1, h2, h3⟩ := hinv
    unfold ExtractStellarAbund at hl
    unfold abundFinish at hl
    set F := lines.foldl (abundLineStep f2 fsOk)
      { st := { i := 0, cur := [], outLines := [], warns := 0, flags := flags0 }
        stopped := false } with hF
    simp only [List.mem_append, List.mem_cons, List.mem_singleton] at hl
    rcases hl with hl | hl | hl | hl | hl | hl
    · by_cases h66 : F.st.i > 66
      · rw [if_pos h66] at hl
        rcases List.mem_append.mp hl with h | h
        · exact h3 l h
        · rw [List.mem_singleton] at h; subst h; omega
      · rw [if_neg h66] at hl
        exact h3 l hl
    · subst hl
      by_cases h66 : F.st.i > 66
      · rw [if_pos h66]
        simp
        omega
      · rw [if_neg h66]
        simp
        omega
    · subst hl; simp; omega
    · subst hl; simp; omega
    · subst hl; omega
    · exact absurd hl (by simp)
  · intro st outs h5
    unfold abundToken
    rw [if_neg (by omega)]
  · exact ⟨_, _, rfl⟩

/-- Constant abundance formatter used to witness the amended C8. -/
def constF2 : List Char → List Char := fun _ => "-4.67".toList

/-- Empty emitter state used to witness the amended C8. -/
def abundStW : AbundState :=
  { i := 0, cur := [], outLines := [], warns := 0, flags := Flags.init }

set_option maxRecDepth 8000 in
/-- Witness for the amended C8: on the concrete abundance block every line
is within `66 + 12` characters, and a short (unknown-element) token is
warned about and skipped. -/
theorem C8_abund_block_witness :
    (((ExtractStellarAbund constF2 true Flags.init [abundLineCex]
      ("100000".toList)).1.headD []).length ≤ 66 + 12) ∧
    abundToken abundStW ("XX:".toList) =
      { abundStW with warns := abundStW.warns + 1 } := by
  have h := C8_abund_block constF2 true Flags.init [abundLineCex]
    ("100000".toList) 12 (by intro s; show ("-4.67".toList).length + 7 ≤ 12; decide)
    (by decide)
  exact ⟨h.1 _ (by decide), h.2.1 abundStW ("XX:".toList) (by decide)⟩

/-- `!strncmp(s, p, strlen(p))`. -/
def startsWith (p : String) (s : List Char) : Bool :=
  s.take p.toList.length == p.toList

/-- State of the parsemail.c main loop: the request counter `n_requests`,
whether a request file is open (`fo != NULL`), the per-request markers, the
resolved client name and sender address, and the number of committed
requests (per-request job-script sections written into the process file). -/
structure MState where
  n_requests : Int
  foOpen : Bool
  has_begin_request : Bool
  has_end_request : Bool
  is_mirror : Bool
  ClientName : List Char
  address : List Char
  commits : Nat
  deriving DecidableEq, Repr

/-- Body copying (parsemail.c lines 366-375): while a request file is open,
each line is compressed and lowercased to detect the `beginrequest` /
`endrequest` markers, and copied verbatim into the request file (the file
content itself is not modelled). -/
def bodyStep (s : List Char) (st : MState) : MState :=
  if st.foOpen then
    let s1 := lowerL (compressC 80 s)
    let st1 := if startsWith "beginrequest" s1
      then { st with has_begin_request := true } else st
    if startsWith "endrequest" s1
      then { st1 with has_end_request := true } else st1
  else st

/-- `From ` boundary handling (parsemail.c lines 244-291): an open request
without `begin request` is killed (file removed, counter decremented); an
open request with it is committed (its job-script section is written); then
the counter is incremented and a fresh request file opened. -/
def handleBoundary (st : MState) : MState :=
  let st1 :=
    if st.foOpen then
      if ¬ st.has_begin_request then
        { st with
          n_requests := st.n_requests - 1
          foOpen := false
          has_begin_request := false
          has_end_request := false
          is_mirror := false }
      else
        { st with
          commits := st.commits + 1
          foOpen := false
          has_begin_request := false
          has_end_request := false
          is_mirror := false }
    else st
  { st1 with n_requests := st1.n_requests + 1, foOpen := true, address := [] }

/-- Continuation-line consumption for a `From:` header without `@`
(parsemail.c lines 313-317): read on while lines start with five blanks,
stopping at one containing `@`; a non-continuation line is also consumed
(it ends the loop with the buffer holding it). -/
def consumeCont : List Char → List (List Char) → List Char × List (List Char)
  | s, [] => (s, [])
  | _, t :: ts =>
    if startsWith "     " t then
      (if '@' ∈ t then (t, ts) else consumeCont t ts)
    else (t, ts)

/-- `From: ` header handling (parsemail.c lines 319-364) on the (possibly
continuation-replaced) line buffer `s`: extract the address, authenticate
against the registries; an unregistered client kills the request — counter
decremented, file removed, `fo = NULL` — and `continue`s (second component
`true`); otherwise the client name is stored and a `VALDMirrorSite` match
sets `is_mirror`. -/
def fromColonProcess (global localreg : Option (List (List Char)))
    (s : List Char) (st : MState) : MState × Bool :=
  let address := extractAddressFrom s
  let name := authenticate global localreg address
  if name = [] then
    ({ st with
       address := address
       ClientName := []
       n_requests := st.n_requests - 1
       foOpen := false
       has_begin_request := false
       has_end_request := false
       is_mirror := false }, true)
  else
    ({ st with
       address := address
       ClientName := name
       is_mirror := if name == "VALDMirrorSite".toList then true
         else st.is_mirror }, false)

/-- The parsemail.c main loop (lines 242-376), on fuel: every round consumes
at least one input line, so `lines.length` rounds always suffice. -/
def mainLoopGo (global localreg : Option (List (List Char))) :
    Nat → List (List Char) → MState → MState
  | 0, _, st => st
  | _ + 1, [], st => st
  | fuel + 1, s :: rest, st =>
    if startsWith "From " s then
      mainLoopGo global localreg fuel rest (bodyStep s (handleBoundary st))
    else if startsWith "From: " s then
      let p := if '@' ∈ s then (s, rest) else consumeCont s rest
      let q := fromColonProcess global localreg p.1 st
      if q.2 then mainLoopGo global localreg fuel p.2 q.1
      else mainLoopGo global localreg fuel p.2 (bodyStep p.1 q.1)
    else
      mainLoopGo global localreg fuel rest (bodyStep s st)

/-- One full run of the mail splitter (parsemail.c `main`): process the
mailbox lines, then resolve a still-open request at end of input (lines
377-422), and report the persisted counter together with the number of
committed requests. -/
def parsemailRun (global localreg : Option (List (List Char)))
    (lines : List (List Char)) (n0 : Int) : Int × Nat :=
  let st := mainLoopGo global localreg lines.length lines
    { n_requests := n0, foOpen := false, has_begin_request := false,
      has_end_request := false, is_mirror := false, ClientName := [],
      address := [], commits := 0 }
  if st.foOpen then
    if ¬ st.has_begin_request then (st.n_requests - 1, st.commits)
    else (st.n_requests, st.commits + 1)
  else (st.n_requests, st.commits)

/-- A mailbox whose message carries two `From:` header lines from a sender
not present in the (empty but existing) global registry. -/
def mailboxCex : List (List Char) :=
  ["From x\n".toList, "From: u@x\n".toList, "From: u@x\n".toList]

/-- C1: evaluation of the mail splitter at the failing input. The first
`From ` line allocates request ID 1; the first unregistered `From:` line
kills it (counter back to 0, `fo = NULL`); the second `From:` line runs the
same kill path again although no request file is open (parsemail.c lines
355-361 do not check `fo`), decrementing the counter once more. The
persisted final counter is `-1 < 0 = initial` and 0 requests are committed,
contradicting both `final_counter >= initial_counter` and
`commits = final_counter - initial_counter`. -/
theorem C1_counter_commit_eval :
    parsemailRun (some []) none mailboxCex 0 = (-1, 0) ∧
    ¬ ((0 : Int) ≤ (parsemailRun (some []) none mailboxCex 0).1 ∧
      ((parsemailRun (some []) none mailboxCex 0).2 : Int) =
        (parsemailRun (some []) none mailboxCex 0).1 - 0) := by
  refine ⟨by decide, ?_⟩
  intro h
  have := h.1
  rw [(by decide : parsemailRun (some []) none mailboxCex 0 = (-1, 0))] at this
  exact absurd this (by decide)
